import Mathlib

/-!
# Polygon records: parsing and predicates

A shallow embedding of the polygon readers and predicates of
`babinov.serafim/T3/shapes.cpp` and `erohin.vladimir/T3/polygon.cpp`.

* `Cpp` models the part of the standard library the two readers use: the
  buffer of unread characters of a `std::istream`, `eofbit` and `failbit`,
  the sentry, `peek`, formatted extraction of `int` and `size_t`,
  `std::istream_iterator`, `std::copy_if`, `std::copy_n` and
  `std::minmax_element`, each as libstdc++ implements it.  The buffer is an
  in-memory character sequence, so `badbit` is never raised and is left out.
* `int` values are integers; the extraction clamps to the 32-bit range exactly
  as the library does.  The arithmetic of the geometry is given in two
  readings.  In the exact reading (`babinov.Vector.mk2`, `babinov.getArea` and
  the definitions between them) `int` operations are done in the integers and
  `double` operations in the reals; the statements about exact real
  arithmetic are about this reading.  In the machine reading
  (`babinov.Machine`, `erohin.accumulate`) the result of an `int` operation
  wraps around modulo `2^32` (`Cpp.wrapInt`), every `double` operation is
  rounded to a significand of 53 bits (`Cpp.roundDouble`), and a `double`
  that does not fit `int` converts to the least `int` (`erohin.toInt`).
* A `double` quotient with a zero denominator and the square root of a
  negative number are not finite numbers and are represented by `none`.
* Where the code has no defined behaviour (an index out of range, `back()` of
  an empty vector, an end iterator dereferenced) the model returns `none`.
-/

set_option autoImplicit false

namespace Cpp

/-- An input stream: the characters not yet consumed and two state bits. -/
structure IStream where
  buf : List Char
  eofbit : Bool
  failbit : Bool
deriving DecidableEq, Repr

/-- A fresh stream over a character sequence, as `std::istringstream` builds it. -/
def IStream.ofChars (cs : List Char) : IStream := ⟨cs, false, false⟩

/-- The test `good()`: no state bit is set. -/
def IStream.good (s : IStream) : Bool := !s.eofbit && !s.failbit

/-- The test `fail()`, which is also `!in` of the sources. -/
def IStream.fail (s : IStream) : Bool := s.failbit

/-- The call `setstate(std::ios::failbit)`. -/
def IStream.setFail (s : IStream) : IStream := { s with failbit := true }

/-- The call `clear()`: every state bit is reset. -/
def IStream.clear (s : IStream) : IStream := { s with eofbit := false, failbit := false }

/-- The classification `std::isspace` in the "C" locale. -/
def isSpace (c : Char) : Bool := c.toNat = 32 || (9 ≤ c.toNat && c.toNat ≤ 13)

/-- The classification of decimal digits. -/
def isDigit (c : Char) : Bool := 48 ≤ c.toNat && c.toNat ≤ 57

/-- `std::istream::sentry` with `skipws`: a stream that is not good gets
`failbit`; otherwise white space is discarded, and running into the end of
the input sets `eofbit` and `failbit`.  The flag is the sentry's truth value. -/
def sentry (s : IStream) : IStream × Bool :=
  if s.good then
    match s.buf.dropWhile isSpace with
    | [] => (⟨[], true, true⟩, false)
    | c :: rest => ({ s with buf := c :: rest }, true)
  else (s.setFail, false)

/-- `std::istream::peek`: an unformatted input function (its sentry does not
skip white space); at the end of the input it sets `eofbit`. -/
def peek (s : IStream) : IStream × Option Char :=
  if s.good then
    match s.buf with
    | [] => ({ s with eofbit := true }, none)
    | c :: _ => (s, some c)
  else (s.setFail, none)

/-- The value of a run of decimal digits. -/
def digitsValue (ds : List Char) : Nat :=
  ds.foldl (fun acc c => 10 * acc + (c.toNat - 48)) 0

/-- The scan of `num_get` for an integer in base 10: an optional sign, then
the longest run of digits.  Returns the sign, the digits and what follows. -/
def scanNumber (buf : List Char) : Bool × List Char × List Char :=
  match buf with
  | [] => (false, [], [])
  | c :: rest =>
    if c = '-' then (true, rest.takeWhile isDigit, rest.dropWhile isDigit)
    else if c = '+' then (false, rest.takeWhile isDigit, rest.dropWhile isDigit)
    else (false, buf.takeWhile isDigit, buf.dropWhile isDigit)

/-- Least value of `int`. -/
def intMin : Int := -2147483648

/-- Greatest value of `int`. -/
def intMax : Int := 2147483647

/-- Greatest value of `size_t` (64 bits). -/
def sizeMax : Nat := 18446744073709551615

/-- The extraction `in >> n` for `int n`: without digits the value is `0` and
`failbit` is set; a value outside the range of `int` is clamped and `failbit`
is set; reaching the end of the input while scanning sets `eofbit`.  When the
sentry fails the variable keeps its value `old`. -/
def readInt (s : IStream) (old : Int) : IStream × Int :=
  match sentry s with
  | (s0, false) => (s0, old)
  | (s0, true) =>
    match scanNumber s0.buf with
    | (neg, ds, rest) =>
      let s1 : IStream := { s0 with buf := rest, eofbit := rest.isEmpty }
      if ds.isEmpty then (s1.setFail, 0)
      else
        let v : Int := if neg then -(digitsValue ds : Int) else (digitsValue ds : Int)
        if v < intMin then (s1.setFail, intMin)
        else if intMax < v then (s1.setFail, intMax)
        else (s1, v)

/-- The extraction `in >> n` for `size_t n`: as for `int`, but a value above
the greatest `size_t` is replaced by it (with `failbit`), and a leading minus
sign negates modulo `2^64`. -/
def readSize (s : IStream) (old : Nat) : IStream × Nat :=
  match sentry s with
  | (s0, false) => (s0, old)
  | (s0, true) =>
    match scanNumber s0.buf with
    | (neg, ds, rest) =>
      let s1 : IStream := { s0 with buf := rest, eofbit := rest.isEmpty }
      if ds.isEmpty then (s1.setFail, 0)
      else if sizeMax < digitsValue ds then (s1.setFail, sizeMax)
      else if neg then (s1, (sizeMax + 1 - digitsValue ds) % (sizeMax + 1))
      else (s1, digitsValue ds)

/-- Modelled from the spec: the delimiter extractors of `delimiters.hpp`
(`CharDelimiterI::insensitive`) and `delimiter.hpp` (`IgnoredCaseDelimiter`),
which are not among the sources.  The extractor skips white space, reads one
character and sets `failbit` unless it is the expected one up to letter case. -/
def readDelimiter (expected : Char) (s : IStream) : IStream :=
  match sentry s with
  | (s0, false) => s0
  | (s0, true) =>
    match s0.buf with
    | [] => ⟨[], true, true⟩
    | c :: rest =>
      if c.toLower = expected.toLower then { s0 with buf := rest }
      else { s0 with buf := rest, failbit := true }

/-- The decimal digits of a number, most significant first, in front of `acc`. -/
def showNatAux : Nat → Nat → List Char → List Char
  | 0, _, acc => acc
  | fuel + 1, n, acc =>
    if n < 10 then Char.ofNat (48 + n) :: acc
    else showNatAux fuel (n / 10) (Char.ofNat (48 + n % 10) :: acc)

/-- What `out << n` prints for an unsigned number. -/
def showNat (n : Nat) : List Char := showNatAux (n + 1) n []

/-- What `out << n` prints for an `int`. -/
def showInt (i : Int) : List Char :=
  if i < 0 then '-' :: showNat i.natAbs else showNat i.natAbs

/-- A blank: white space other than the newline. -/
def isBlank (c : Char) : Bool := isSpace c && decide (c ≠ '\n')

/-- The value fits the type `int`. -/
def InIntRange (i : Int) : Prop := intMin ≤ i ∧ i ≤ intMax

instance (i : Int) : Decidable (InIntRange i) := by unfold InIntRange; infer_instance

/-- The result of an `int` operation whose exact value is `i`: the value
itself when it fits the 32 bits, else the two's-complement wrap-around.
Signed overflow has no defined behaviour in C++; wrapping is what the usual
implementations do. -/
def wrapInt (i : Int) : Int := (i + 2147483648) % 4294967296 - 2147483648

/-- Rounding of a real number to an integer, to nearest, ties to the even
one. -/
noncomputable def roundHalfEven (y : ℝ) : Int :=
  if y - ⌊y⌋ < 1 / 2 then ⌊y⌋
  else if 1 / 2 < y - ⌊y⌋ then ⌊y⌋ + 1
  else if ⌊y⌋ % 2 = 0 then ⌊y⌋ else ⌊y⌋ + 1

/-- The rounding of `double` arithmetic: the nearest number with a significand
of 53 bits, ties to the even significand.  Every arithmetic operation on
`double` values returns the rounding of its exact result.  The exponent is
not bounded, so overflow and underflow, which need magnitudes above `2^1023`
or below `2^-1022`, are outside the model. -/
noncomputable def roundDouble (x : ℝ) : ℝ :=
  if x = 0 then 0
  else (roundHalfEven (x / (2 : ℝ) ^ (Int.log 2 |x| - 52)) : ℝ) * (2 : ℝ) ^ (Int.log 2 |x| - 52)

/-- The state of a `std::istream_iterator`: the value read last and whether
the iterator still refers to its stream (otherwise it is the end iterator). -/
structure IstreamIterator (α : Type) where
  value : α
  ok : Bool

/-- The read the iterator performs when it is constructed and on every
increment: extract into the stored value and become the end iterator when
the stream fails.  An end iterator does not touch the stream. -/
def IstreamIterator.read {α : Type} (extract : IStream → α → IStream × α)
    (s : IStream) (it : IstreamIterator α) : IStream × IstreamIterator α :=
  if it.ok then ((extract s it.value).1, ⟨(extract s it.value).2, !(extract s it.value).1.fail⟩)
  else (s, it)

/-- The loop of `std::copy_if(first, last, out, pred)` over stream iterators,
`last` being the end iterator: while `first` is not the end iterator, call
`pred` (which acts on the stream), append the current value when it answers
true, and increment.  The first argument bounds the number of rounds. -/
def copyIf {α : Type} (pred : IStream → IStream × Bool) (extract : IStream → α → IStream × α) :
    Nat → IStream → IstreamIterator α → List α → IStream × List α
  | 0, s, _, out => (s, out)
  | fuel + 1, s, it, out =>
    if it.ok then
      copyIf pred extract fuel
        (it.read extract (pred s).1).1 (it.read extract (pred s).1).2
        (if (pred s).2 then out ++ [it.value] else out)
    else (s, out)

/-- The loop of `std::copy_n(first, n, out)` over a stream iterator: `n` times
append the current value, incrementing the iterator between two of them (not
after the last). -/
def copyN {α : Type} (extract : IStream → α → IStream × α) :
    Nat → IStream → IstreamIterator α → List α → IStream × List α
  | 0, s, _, out => (s, out)
  | n + 1, s, it, out =>
    if n = 0 then (s, out ++ [it.value])
    else copyN extract n (it.read extract s).1 (it.read extract s).2 (out ++ [it.value])

/-- The scan of `std::minmax_element` after its first two elements: the
remaining elements are taken two at a time, the smaller of a pair is compared
with the current minimum and the larger with the current maximum. -/
def minmaxLoop {α : Type} (comp : α → α → Bool) : α → α → List α → α × α
  | mn, mx, [] => (mn, mx)
  | mn, mx, [f] =>
    if comp f mn then (f, mx) else if !comp f mx then (mn, f) else (mn, mx)
  | mn, mx, f :: n :: rest =>
    if comp n f then
      minmaxLoop comp (if comp n mn then n else mn) (if !comp f mx then f else mx) rest
    else
      minmaxLoop comp (if comp f mn then f else mn) (if !comp n mx then n else mx) rest

/-- The elements `std::minmax_element(first, last, comp)` points to, as
(minimum, maximum); `none` for an empty range, where both iterators are
past the last element.  The first two elements are ordered by one comparison,
the others are scanned by `minmaxLoop`. -/
def minmaxElement {α : Type} (comp : α → α → Bool) : List α → Option (α × α)
  | [] => none
  | [a] => some (a, a)
  | a :: b :: rest =>
    some (if comp b a then minmaxLoop comp b a rest else minmaxLoop comp a b rest)

end Cpp

namespace babinov

open Cpp

/-- A point with `int` coordinates. -/
structure Point where
  x : Int
  y : Int
deriving DecidableEq, Repr

/-- A polygon: its vertices in order. -/
structure Polygon where
  points : List Point
deriving DecidableEq, Repr

/-- A triangle. -/
structure Triangle where
  a : Point
  b : Point
  c : Point
deriving DecidableEq, Repr

/-- A vector, stored as the point of its coordinates. -/
structure Vector where
  coords : Point
deriving DecidableEq, Repr

/-- The constructor `Vector(begin, end)`, the subtractions done in the
integers. -/
def Vector.mk2 (b e : Point) : Vector := ⟨⟨e.x - b.x, e.y - b.y⟩⟩

/-- The product `Vector::operator*`: the dot product, computed in the integers
and converted to `double`. -/
def Vector.dot (u v : Vector) : ℝ :=
  ((u.coords.x * v.coords.x + u.coords.y * v.coords.y : Int) : ℝ)

/-- The method `Vector::getLength` in exact real arithmetic. -/
noncomputable def Vector.getLength (v : Vector) : ℝ :=
  Real.sqrt ((v.coords.x : ℝ) ^ 2 + (v.coords.y : ℝ) ^ 2)

/-- The method `Vector::findCosBetween` in exact real arithmetic: the quotient
of the dot product by the product of the lengths; `none` when the denominator is zero, where the
`double` quotient is a NaN or an infinity. -/
noncomputable def Vector.findCosBetween (u v : Vector) : Option ℝ :=
  if u.getLength * v.getLength = 0 then none
  else some (u.dot v / (u.getLength * v.getLength))

/-- The function `setFailIfEndOfLine`: set `failbit` when the next character
is a newline; the answer is always true. -/
def setFailIfEndOfLine (s : IStream) : IStream × Bool :=
  if (peek s).2 = some '\n' then ((peek s).1.setFail, true) else ((peek s).1, true)

/-- The extractor `operator>>(std::istream&, Point&)`. -/
def inputPoint (s : IStream) (point : Point) : IStream × Point :=
  match sentry s with
  | (s0, false) => (s0, point)
  | (s0, true) =>
    let s1 := readDelimiter '(' s0
    let rx := readInt s1 0
    let s3 := readDelimiter ';' rx.1
    let ry := readInt s3 0
    let s5 := readDelimiter ')' ry.1
    if s5.fail then (s5, point) else (s5, ⟨rx.2, ry.2⟩)

/-- The extractor `operator>>(std::istream&, Polygon&)`.  The stream iterator
is constructed (which reads the first point) and `std::copy_if` runs until the
stream fails.  The value the iterator holds before its first read is never
looked at; it is taken to be the origin.  The bound on the rounds of the loop
is the length of the unread input, which every round shortens, so the bound is
never reached. -/
def inputPolygon (s : IStream) (polygon : Polygon) : IStream × Polygon :=
  match sentry s with
  | (s0, false) => (s0, polygon)
  | (s0, true) =>
    let rn := readInt s0 0
    if rn.2 < 3 then (rn.1, ⟨[]⟩)
    else
      let s1 := (setFailIfEndOfLine rn.1).1
      if s1.fail then (s1, polygon)
      else
        let it := IstreamIterator.read inputPoint s1 ⟨⟨0, 0⟩, true⟩
        let r := copyIf setFailIfEndOfLine inputPoint (it.1.buf.length + 1) it.1 it.2 []
        if r.2.length ≠ rn.2.toNat then (r.1, ⟨[]⟩)
        else (r.1.clear, ⟨r.2⟩)

/-- The text of a well-formed point, `(x;y)`. -/
def pointToken (p : Point) : List Char :=
  '(' :: (showInt p.x ++ ';' :: (showInt p.y ++ [')']))

/-- The text of a run of well-formed points, each after its own gap. -/
def pointTokens : List (List Char × Point) → List Char
  | [] => []
  | item :: items => item.1 ++ (pointToken item.2 ++ pointTokens items)

/-- Both coordinates fit the type `int`. -/
def Point.InRange (p : Point) : Prop := InIntRange p.x ∧ InIntRange p.y

instance (p : Point) : Decidable p.InRange := by unfold Point.InRange; infer_instance

/-- The gaps are blanks and the points fit the type: the run stays on one line. -/
def WellFormed (items : List (List Char × Point)) : Prop :=
  ∀ item ∈ items, (∀ c ∈ item.1, isBlank c = true) ∧ item.2.InRange

instance (items : List (List Char × Point)) : Decidable (WellFormed items) := by
  unfold WellFormed; infer_instance

/-- The line ends here: a newline is next, or the input is exhausted. -/
def EndsLine (tail : List Char) : Prop := tail = [] ∨ tail.head? = some '\n'

instance (tail : List Char) : Decidable (EndsLine tail) := by unfold EndsLine; infer_instance

/-- What follows is not a point: it does not continue a number, and the point
extractor fails on it. -/
def NotAPoint (tail : List Char) : Prop :=
  (∀ c, tail.head? = some c → isDigit c = false)
    ∧ (inputPoint (IStream.ofChars tail) ⟨0, 0⟩).1.fail = true

/-- The stream the point loop leaves behind when it stops in front of `tail`:
at the end of the input, at a newline, or after the failed attempt to read a
point. -/
def stopStream (tail : List Char) : IStream :=
  if tail = [] then ⟨[], true, true⟩
  else if tail.head? = some '\n' then ⟨tail, false, true⟩
  else (inputPoint (IStream.ofChars tail) ⟨0, 0⟩).1

/-- The function `getVertexes`. -/
def getVertexes (polygon : Polygon) : Nat := polygon.points.length

/-- The comparison `isPointFurther(basic, compared)`. -/
def isPointFurther (basic compared : Point) : Bool :=
  decide (compared.x > basic.x) && decide (compared.y > basic.y)

/-- The predicate `isRectangle` in the exact reading. -/
noncomputable def isRectangle (polygon : Polygon) : Bool :=
  match polygon.points with
  | [p0, p1, p2, p3] =>
    let firstSide := Vector.mk2 p0 p1
    let secondSide := Vector.mk2 p1 p2
    let thirdSide := Vector.mk2 p2 p3
    let fourthSide := Vector.mk2 p0 p3
    decide (firstSide.findCosBetween secondSide = some 0)
      && decide (secondSide.findCosBetween thirdSide = some 0)
      && decide (thirdSide.findCosBetween fourthSide = some 0)
  | _ => false

/-- The corners, in traversal order, of a rectangle that is not degenerate:
opposite sides `v0 v1` and `v3 v2` are equal as vectors, the sides `v0 v1`
and `v1 v2` are perpendicular, and both have non-zero length. -/
def RectangleCorners (v0 v1 v2 v3 : Point) : Prop :=
  v1.x - v0.x = v2.x - v3.x ∧ v1.y - v0.y = v2.y - v3.y
    ∧ (v1.x - v0.x) * (v2.x - v1.x) + (v1.y - v0.y) * (v2.y - v1.y) = 0
    ∧ v0 ≠ v1 ∧ v1 ≠ v2

instance (v0 v1 v2 v3 : Point) : Decidable (RectangleCorners v0 v1 v2 v3) := by
  unfold RectangleCorners; infer_instance

/-- The return expression of `isIntersect` on the four selected points. -/
def intersectTest (fMin fMax sMin sMax : Point) : Bool :=
  ((!isPointFurther fMax sMin) && (!isPointFurther sMax fMin))
    || ((!isPointFurther sMax fMin) && (!isPointFurther fMax sMin))

/-- The standard overlap test of two axis-aligned boxes given by their corners,
in the words of the specification: the intervals overlap on each axis. -/
def AxisOverlap (fMin fMax sMin sMax : Point) : Prop :=
  fMin.x ≤ sMax.x ∧ sMin.x ≤ fMax.x ∧ fMin.y ≤ sMax.y ∧ sMin.y ≤ fMax.y

instance (fMin fMax sMin sMax : Point) : Decidable (AxisOverlap fMin fMax sMin sMax) := by
  unfold AxisOverlap; infer_instance

/-- The predicate `isIntersect`; `none` when a polygon has no points, where
the code dereferences an end iterator. -/
def isIntersect (first second : Polygon) : Option Bool :=
  match minmaxElement isPointFurther first.points, minmaxElement isPointFurther second.points with
  | some fPts, some sPts => some (intersectTest fPts.1 fPts.2 sPts.1 sPts.2)
  | _, _ => none

/-- The generator `TriangleGeneration`: the triangle produced last and the
points not used yet. -/
structure TriangleGeneration where
  current : Triangle
  nextPoints : List Point
deriving DecidableEq, Repr

/-- The call `TriangleGeneration::operator()`: the second point becomes the old
third one, the third becomes `nextPoints.back()`, which is removed; the new
triangle is returned together with the changed generator.  `none` when
`nextPoints` is empty, where `back()` has no defined behaviour. -/
def TriangleGeneration.call (g : TriangleGeneration) :
    Option (Triangle × TriangleGeneration) :=
  match g.nextPoints.getLast? with
  | none => none
  | some last =>
    some (⟨g.current.a, g.current.c, last⟩,
      ⟨⟨g.current.a, g.current.c, last⟩, g.nextPoints.dropLast⟩)

/-- The loop of `std::generate_n(std::back_inserter(out), n, gen)` on a copy of
the generator. -/
def generateN : Nat → TriangleGeneration → List Triangle → Option (List Triangle)
  | 0, _, out => some out
  | n + 1, g, out =>
    match g.call with
    | none => none
    | some r => generateN n r.2 (out ++ [r.1])

/-- The function `splitToTriangles`; `none` when the polygon has fewer than
three points, where `points[0]`, `points[1]`, `points[2]` are out of range. -/
def splitToTriangles (polygon : Polygon) : Option (List Triangle) :=
  match polygon.points with
  | p0 :: p1 :: p2 :: rest =>
    generateN (polygon.points.length - 3) ⟨⟨p0, p1, p2⟩, rest⟩ [⟨p0, p1, p2⟩]
  | _ => none

/-- The argument of the square root in `getArea(const Triangle&)`: the
product `s (s - a) (s - b) (s - c)` with the three side lengths and half their
sum. -/
noncomputable def Triangle.heronRadicand (triangle : Triangle) : ℝ :=
  let a := (Vector.mk2 triangle.a triangle.b).getLength
  let b := (Vector.mk2 triangle.b triangle.c).getLength
  let c := (Vector.mk2 triangle.a triangle.c).getLength
  let semiPer := (a + b + c) / 2
  semiPer * (semiPer - a) * (semiPer - b) * (semiPer - c)

/-- The function `getArea(const babinov::Triangle&)`.  `Real.sqrt` is zero on
negative numbers, where `std::sqrt` gives a NaN; the radicand is never
negative (`heronRadicand_eq`), so the two agree. -/
noncomputable def Triangle.getArea (triangle : Triangle) : ℝ :=
  Real.sqrt triangle.heronRadicand

/-- The function `getTrianglesAreas`. -/
noncomputable def getTrianglesAreas (triangles : List Triangle) : List ℝ :=
  triangles.map Triangle.getArea

/-- The function `babinov::getArea(const Polygon&)`: `std::accumulate` adds the
areas from the left, starting with `0.0`. -/
noncomputable def getArea (polygon : Polygon) : Option ℝ :=
  (splitToTriangles polygon).map fun triangles =>
    (getTrianglesAreas triangles).foldl (fun acc x => acc + x) 0

/-- The cross product `(b - a) x (c - a)` of a triangle. -/
def Triangle.cross (t : Triangle) : Int :=
  (t.b.x - t.a.x) * (t.c.y - t.a.y) - (t.b.y - t.a.y) * (t.c.x - t.a.x)

/-- The fan of triangles with apex `a` that starts at `b` and runs through the
points `ws` in the order given. -/
def fan (a : Point) : Point → List Point → List Triangle
  | _, [] => []
  | b, w :: ws => ⟨a, b, w⟩ :: fan a w ws

/-- The shoelace sum of a polygon, in the words of the specification: the sum
of `x_i * y_(i+1) - x_(i+1) * y_i` over the vertices, indices taken cyclically.
Half its absolute value is the area of a simple polygon. -/
def shoelaceSum (polygon : Polygon) : Int :=
  ((polygon.points.zip (polygon.points.rotate 1)).map
    fun pq => pq.1.x * pq.2.y - pq.2.x * pq.1.y).sum

/-- The turns of a polygon: the cross products at consecutive vertices,
indices taken cyclically. -/
def turns (polygon : Polygon) : List Int :=
  (polygon.points.zip ((polygon.points.rotate 1).zip (polygon.points.rotate 2))).map
    fun pqr => Triangle.cross ⟨pqr.1, pqr.2.1, pqr.2.2⟩

/-- The polygon is strictly convex, its vertices in boundary order: all turns
go the same way. -/
def IsConvex (polygon : Polygon) : Prop :=
  (∀ t ∈ turns polygon, 0 < t) ∨ (∀ t ∈ turns polygon, t < 0)

instance (polygon : Polygon) : Decidable (IsConvex polygon) := by
  unfold IsConvex; infer_instance

namespace Machine

/-- The constructor `Vector(begin, end)` with the subtractions done in `int`. -/
def Vector.mk2 (b e : Point) : Vector := ⟨⟨wrapInt (e.x - b.x), wrapInt (e.y - b.y)⟩⟩

/-- The product `Vector::operator*` with the two products and the sum done in
`int`; the conversion of the `int` result to `double` is exact. -/
def Vector.dot (u v : Vector) : ℝ :=
  ((wrapInt (wrapInt (u.coords.x * v.coords.x) + wrapInt (u.coords.y * v.coords.y)) : Int) : ℝ)

/-- The method `Vector::getLength` in `double`: the two powers, their sum and
the square root are rounded. -/
noncomputable def Vector.getLength (v : Vector) : ℝ :=
  roundDouble (Real.sqrt (roundDouble
    (roundDouble ((v.coords.x : ℝ) ^ 2) + roundDouble ((v.coords.y : ℝ) ^ 2))))

/-- The method `Vector::findCosBetween` in `double`: the product of the lengths
and the quotient are rounded; `none` when the denominator is zero, where the
quotient is a NaN or an infinity. -/
noncomputable def Vector.findCosBetween (u v : Vector) : Option ℝ :=
  if roundDouble (Vector.getLength u * Vector.getLength v) = 0 then none
  else some (roundDouble (Vector.dot u v / roundDouble (Vector.getLength u * Vector.getLength v)))

/-- The predicate `isRectangle` in machine arithmetic. -/
noncomputable def isRectangle (polygon : Polygon) : Bool :=
  match polygon.points with
  | [p0, p1, p2, p3] =>
    let firstSide := Vector.mk2 p0 p1
    let secondSide := Vector.mk2 p1 p2
    let thirdSide := Vector.mk2 p2 p3
    let fourthSide := Vector.mk2 p0 p3
    decide (Vector.findCosBetween firstSide secondSide = some 0)
      && decide (Vector.findCosBetween secondSide thirdSide = some 0)
      && decide (Vector.findCosBetween thirdSide fourthSide = some 0)
  | _ => false

/-- The function `getArea(const babinov::Triangle&)` in `double`: every sum,
difference, product and quotient and the square root are rounded; `none` when
the rounded product under the root is negative, where `std::sqrt` gives a
NaN. -/
noncomputable def Triangle.getArea (triangle : Triangle) : Option ℝ :=
  let a := Vector.getLength (Vector.mk2 triangle.a triangle.b)
  let b := Vector.getLength (Vector.mk2 triangle.b triangle.c)
  let c := Vector.getLength (Vector.mk2 triangle.a triangle.c)
  let semiPer := roundDouble (roundDouble (roundDouble (a + b) + c) / 2)
  let radicand := roundDouble (roundDouble (roundDouble
    (semiPer * roundDouble (semiPer - a)) * roundDouble (semiPer - b)) * roundDouble (semiPer - c))
  if radicand < 0 then none else some (roundDouble (Real.sqrt radicand))

/-- The function `getTrianglesAreas` in `double`. -/
noncomputable def getTrianglesAreas (triangles : List Triangle) : List (Option ℝ) :=
  triangles.map Triangle.getArea

/-- The loop of `std::accumulate(first, last, init)` over `double` values: every
sum is rounded, and a NaN among the values makes the result a NaN (`none`). -/
noncomputable def accumulate : List (Option ℝ) → ℝ → Option ℝ
  | [], init => some init
  | none :: _, _ => none
  | some value :: values, init => accumulate values (roundDouble (init + value))

/-- The function `babinov::getArea(const Polygon&)` in `double`. -/
noncomputable def getArea (polygon : Polygon) : Option ℝ :=
  (splitToTriangles polygon).bind fun triangles => accumulate (getTrianglesAreas triangles) 0

/-- The function `addArea` in `double`. -/
noncomputable def addArea (currentArea : ℝ) (polygon : Polygon) : Option ℝ :=
  (getArea polygon).map fun area => roundDouble (currentArea + area)

/-- The function `addAreaIf` in `double`. -/
noncomputable def addAreaIf (currentArea : ℝ) (polygon : Polygon) (pred : Polygon → Bool) :
    Option ℝ :=
  if pred polygon then (getArea polygon).map fun area => roundDouble (currentArea + area)
  else some currentArea

end Machine

/-- The coordinates of the point are small: between `-16383` and `16383`, so
that neither a difference of two coordinates nor a dot product of two
differences leaves the range of `int`. -/
def Point.Small (p : Point) : Prop := |p.x| ≤ 16383 ∧ |p.y| ≤ 16383

instance (p : Point) : Decidable p.Small := by unfold Point.Small; infer_instance

end babinov

namespace erohin

open Cpp

/-- A point with `int` coordinates. -/
structure Point where
  x : Int
  y : Int
deriving DecidableEq, Repr

/-- A polygon: its vertices in order. -/
structure Polygon where
  points : List Point
deriving DecidableEq, Repr

/-- Both coordinates fit the type `int`. -/
def Point.InRange (p : Point) : Prop := InIntRange p.x ∧ InIntRange p.y

instance (p : Point) : Decidable p.InRange := by unfold Point.InRange; infer_instance

/-- The extractor `operator>>(std::istream &, Point &)`.  The coordinates are
read directly into the point; after a failure the point becomes `temp`, the
default-constructed point. -/
def inputPoint (temp : Point) (s : IStream) (point : Point) : IStream × Point :=
  match sentry s with
  | (s0, false) => (s0, point)
  | (s0, true) =>
    let s1 := readDelimiter '(' s0
    let rx := readInt s1 point.x
    let s3 := readDelimiter ';' rx.1
    let ry := readInt s3 point.y
    let s5 := readDelimiter ')' ry.1
    if s5.fail then (s5, temp) else (s5, ⟨rx.2, ry.2⟩)

/-- The inserter `operator<<(std::ostream &, const Point &)` on a good stream. -/
def outputPoint (point : Point) : List Char :=
  '(' :: (showInt point.x ++ ';' :: (showInt point.y ++ [')']))

/-- The points followed by a blank each, as `std::ostream_iterator` writes them. -/
def outputPoints : List Point → List Char
  | [] => []
  | p :: ps => outputPoint p ++ ' ' :: outputPoints ps

/-- The inserter `operator<<(std::ostream &, const Polygon &)` on a good stream. -/
def outputPolygon (polygon : Polygon) : List Char :=
  showNat polygon.points.length ++ ' ' :: outputPoints polygon.points

/-- What a call of the polygon extractor leaves behind: the stream, the target
polygon, and whether `std::length_error` left the call instead of a return. -/
structure Outcome where
  stream : IStream
  polygon : Polygon
  thrown : Bool
deriving DecidableEq, Repr

/-- The extractor `operator>>(std::istream &, Polygon &)`.  `maxSize` is
`max_size()` of the vector of points: `reserve` throws above it. -/
def inputPolygon (maxSize : Nat) (temp : Point) (s : IStream) (polygon : Polygon) : Outcome :=
  match sentry s with
  | (s0, false) => ⟨s0, polygon, false⟩
  | (s0, true) =>
    let rc := readSize s0 0
    if rc.2 < 3 then ⟨rc.1.setFail, polygon, false⟩
    else if maxSize < rc.2 then ⟨rc.1, polygon, true⟩
    else
      let it := IstreamIterator.read (inputPoint temp) rc.1 ⟨temp, true⟩
      let r := copyN (inputPoint temp) rc.2 it.1 it.2 []
      if r.1.fail then ⟨r.1, polygon, false⟩ else ⟨r.1, ⟨r.2⟩, false⟩

/-- The conversion of a `double` to `int`: the fractional part is discarded
(truncation toward zero) when the result fits.  Otherwise the conversion has
no defined behaviour; the model takes the least `int`, which is what the
conversion instruction of x86-64 returns. -/
noncomputable def toInt (x : ℝ) : Int :=
  if (intMin : ℝ) - 1 < x ∧ x < (intMax : ℝ) + 1 then (if 0 ≤ x then ⌊x⌋ else ⌈x⌉)
  else intMin

/-- The loop of `std::accumulate(first, last, init)` over `double` values with
an `init` of type `int`: every round converts `init` to `double`, adds the
value in `double` (the sum is rounded) and converts the sum back to `int`. -/
noncomputable def accumulate : List ℝ → Int → Int
  | [], init => init
  | value :: values, init => accumulate values (toInt (roundDouble ((init : ℝ) + value)))

/-- The loop of `std::transform(first, last, out, op)` with a function object
`op` that carries a state: `call` gives the value and the next state. -/
def transform {σ : Type} (call : σ → Point → ℝ × σ) : σ → List Point → List ℝ
  | _, [] => []
  | state, p :: ps => (call state p).1 :: transform call (call state p).2 ps

/-- The function `erohin::getArea`.  The function object `evaluateArea` of
`functors.hpp` is not among the sources: `make` builds it from two points and
`call` is its `operator()`.  `none` for a polygon without points, where
`*vertex.cbegin()` has no defined behaviour.  The `int` result of
`std::accumulate` is converted to the `double` that is returned. -/
noncomputable def getArea {σ : Type} (make : Point → Point → σ) (call : σ → Point → ℝ × σ)
    (polygon : Polygon) : Option ℝ :=
  match polygon.points with
  | [] => none
  | first :: _ =>
    some ((accumulate (transform call (make first first) polygon.points) 0 : Int) : ℝ)

/-- The rounded sums `acc + c` a left fold goes through that starts at `acc`
and replaces `acc` by the rounded sum with its fractional part discarded. -/
noncomputable def roundedSums : List ℝ → Int → List ℝ
  | [], _ => []
  | value :: values, acc =>
    roundDouble ((acc : ℝ) + value) ::
      roundedSums values
        (if 0 ≤ roundDouble ((acc : ℝ) + value) then ⌊roundDouble ((acc : ℝ) + value)⌋
          else ⌈roundDouble ((acc : ℝ) + value)⌉)

end erohin

/-! ## The text of numbers and the stream primitives -/

namespace Cpp

theorem digitChar_toNat (d : Nat) (h : d < 10) : (Char.ofNat (48 + d)).toNat = 48 + d := by
  interval_cases d <;> rfl

theorem isDigit_digitChar (d : Nat) (h : d < 10) : isDigit (Char.ofNat (48 + d)) = true := by
  interval_cases d <;> rfl

theorem showNatAux_spec (fuel : Nat) : ∀ (n : Nat) (acc : List Char), n < fuel →
    ∃ ds : List Char, showNatAux fuel n acc = ds ++ acc ∧ ds ≠ [] ∧
      (∀ c ∈ ds, isDigit c = true) ∧
      ∀ a : Nat, ds.foldl (fun acc c => 10 * acc + (c.toNat - 48)) a = a * 10 ^ ds.length + n := by
  induction fuel with
  | zero => intro n acc h; omega
  | succ fuel ih =>
    intro n acc hn
    by_cases h10 : n < 10
    · refine ⟨[Char.ofNat (48 + n)], ?_, by simp, ?_, ?_⟩
      · simp [showNatAux, h10]
      · intro c hc
        rw [List.mem_singleton] at hc
        rw [hc]; exact isDigit_digitChar n h10
      · intro a
        simp only [List.foldl_cons, List.foldl_nil, List.length_singleton, pow_one]
        rw [digitChar_toNat n h10]; omega
    · obtain ⟨ds, hds, hne, hdig, hval⟩ := ih (n / 10) (Char.ofNat (48 + n % 10) :: acc) (by omega)
      refine ⟨ds ++ [Char.ofNat (48 + n % 10)], ?_, by simp, ?_, ?_⟩
      · simp [showNatAux, h10, hds]
      · intro c hc
        rw [List.mem_append, List.mem_singleton] at hc
        rcases hc with hc | hc
        · exact hdig c hc
        · rw [hc]; exact isDigit_digitChar _ (Nat.mod_lt _ (by omega))
      · intro a
        rw [List.foldl_append, hval a]
        simp only [List.foldl_cons, List.foldl_nil, List.length_append, List.length_singleton]
        rw [digitChar_toNat _ (Nat.mod_lt _ (by omega)), pow_succ]
        have := Nat.div_add_mod n 10
        ring_nf
        ring_nf at this
        omega

theorem showNat_ne_nil (n : Nat) : showNat n ≠ [] := by
  obtain ⟨ds, hds, hne, -, -⟩ := showNatAux_spec (n + 1) n [] (by omega)
  simp only [showNat, hds, List.append_nil]; exact hne

theorem showNat_isDigit (n : Nat) : ∀ c ∈ showNat n, isDigit c = true := by
  obtain ⟨ds, hds, -, hdig, -⟩ := showNatAux_spec (n + 1) n [] (by omega)
  simp only [showNat, hds, List.append_nil]; exact hdig

theorem digitsValue_showNat (n : Nat) : digitsValue (showNat n) = n := by
  obtain ⟨ds, hds, -, -, hval⟩ := showNatAux_spec (n + 1) n [] (by omega)
  simp only [showNat, hds, List.append_nil, digitsValue]
  rw [hval 0]; simp

theorem isSpace_of_isDigit {c : Char} (h : isDigit c = true) : isSpace c = false := by
  simp only [isDigit, Bool.and_eq_true, decide_eq_true_eq] at h
  simp only [isSpace, Bool.or_eq_false_iff, Bool.and_eq_false_iff, decide_eq_false_iff_not]
  omega

theorem isSpace_of_isBlank {c : Char} (h : isBlank c = true) : isSpace c = true := by
  simp only [isBlank, Bool.and_eq_true] at h
  exact h.1

theorem ne_newline_of_isBlank {c : Char} (h : isBlank c = true) : c ≠ '\n' := by
  simp only [isBlank, Bool.and_eq_true, decide_eq_true_eq] at h
  exact h.2

theorem sentry_skip (ws : List Char) (c : Char) (rest : List Char)
    (hws : ∀ w ∈ ws, isSpace w = true) (hc : isSpace c = false) :
    sentry ⟨ws ++ c :: rest, false, false⟩ = (⟨c :: rest, false, false⟩, true) := by
  have h : (ws ++ c :: rest).dropWhile isSpace = c :: rest := by
    rw [List.dropWhile_append_of_pos hws, List.dropWhile_cons_of_neg (by simp [hc])]
  simp [sentry, IStream.good, h]

theorem sentry_nonspace (c : Char) (rest : List Char) (hc : isSpace c = false) :
    sentry ⟨c :: rest, false, false⟩ = (⟨c :: rest, false, false⟩, true) :=
  sentry_skip [] c rest (by simp) hc

theorem sentry_failed (s : IStream) (h : s.good = false) : sentry s = (s.setFail, false) := by
  simp [sentry, h]

theorem takeWhile_digits (ds rest : List Char) (hds : ∀ c ∈ ds, isDigit c = true)
    (hrest : ∀ c, rest.head? = some c → isDigit c = false) :
    (ds ++ rest).takeWhile isDigit = ds ∧ (ds ++ rest).dropWhile isDigit = rest := by
  rw [List.takeWhile_append_of_pos hds, List.dropWhile_append_of_pos hds]
  cases rest with
  | nil => simp
  | cons c r =>
    have := hrest c rfl
    simp [List.takeWhile_cons, List.dropWhile_cons, this]

theorem scanNumber_showNat (n : Nat) (rest : List Char)
    (hrest : ∀ c, rest.head? = some c → isDigit c = false) :
    scanNumber (showNat n ++ rest) = (false, showNat n, rest) := by
  have hne := showNat_ne_nil n
  have hdig := showNat_isDigit n
  obtain ⟨h1, h2⟩ := takeWhile_digits (showNat n) rest hdig hrest
  cases hs : showNat n with
  | nil => exact absurd hs hne
  | cons d ds =>
    have hd : isDigit d = true := hdig d (by rw [hs]; exact List.mem_cons_self _ _)
    have hm : d ≠ '-' := by rintro rfl; revert hd; decide
    have hp : d ≠ '+' := by rintro rfl; revert hd; decide
    rw [hs] at h1 h2
    simp only [List.cons_append] at h1 h2 ⊢
    simp only [scanNumber, hm, hp, if_false, h1, h2]

theorem scanNumber_minus (n : Nat) (rest : List Char)
    (hrest : ∀ c, rest.head? = some c → isDigit c = false) :
    scanNumber ('-' :: (showNat n ++ rest)) = (true, showNat n, rest) := by
  obtain ⟨h1, h2⟩ := takeWhile_digits (showNat n) rest (showNat_isDigit n) hrest
  simp only [scanNumber, if_true, h1, h2]

theorem showNat_head_not_space (n : Nat) (rest : List Char) :
    ∃ d ds, showNat n ++ rest = d :: ds ∧ isSpace d = false := by
  cases hs : showNat n with
  | nil => exact absurd hs (showNat_ne_nil n)
  | cons d ds =>
    exact ⟨d, ds ++ rest, rfl, isSpace_of_isDigit (showNat_isDigit n d (by rw [hs]; exact List.mem_cons_self _ _))⟩

theorem readInt_showNat (ws : List Char) (n : Nat) (rest : List Char) (old : Int)
    (hws : ∀ w ∈ ws, isSpace w = true)
    (hn : (n : Int) ≤ intMax)
    (hrest : ∀ c, rest.head? = some c → isDigit c = false) :
    readInt ⟨ws ++ (showNat n ++ rest), false, false⟩ old = (⟨rest, rest.isEmpty, false⟩, (n : Int)) := by
  obtain ⟨d, ds, hd, hsp⟩ := showNat_head_not_space n rest
  have hne : (showNat n).isEmpty = false := by
    cases hs : showNat n with
    | nil => exact absurd hs (showNat_ne_nil n)
    | cons _ _ => rfl
  have hlo : ¬ ((n : Int) < intMin) := by unfold intMin; omega
  have hhi : ¬ (intMax < (n : Int)) := by omega
  simp only [readInt, hd, sentry_skip ws d ds hws hsp]
  rw [← hd, scanNumber_showNat n rest hrest]
  simp [hne, digitsValue_showNat, hlo, hhi]

theorem readInt_showInt (ws : List Char) (i : Int) (rest : List Char) (old : Int)
    (hws : ∀ w ∈ ws, isSpace w = true)
    (hi : InIntRange i)
    (hrest : ∀ c, rest.head? = some c → isDigit c = false) :
    readInt ⟨ws ++ (showInt i ++ rest), false, false⟩ old = (⟨rest, rest.isEmpty, false⟩, i) := by
  by_cases hneg : i < 0
  · have hne : (showNat i.natAbs).isEmpty = false := by
      cases hs : showNat i.natAbs with
      | nil => exact absurd hs (showNat_ne_nil _)
      | cons _ _ => rfl
    have hv : -((i.natAbs : Nat) : Int) = i := by omega
    have hlo : ¬ (i < intMin) := not_lt.mpr hi.1
    have hhi : ¬ (intMax < i) := not_lt.mpr hi.2
    simp only [showInt, hneg, if_true, List.cons_append, readInt,
      sentry_skip ws '-' _ hws (by decide), scanNumber_minus _ rest hrest]
    have hv2 : -|i| = i := by rw [abs_of_neg hneg]; omega
    simp [hne, digitsValue_showNat, hv2, hlo, hhi]
  · have hshow : showInt i = showNat i.natAbs := by simp [showInt, hneg]
    have hv : ((i.natAbs : Nat) : Int) = i := by omega
    rw [hshow, readInt_showNat ws i.natAbs rest old hws (by rw [hv]; exact hi.2) hrest, hv]

theorem readDelimiter_match (ws : List Char) (c : Char) (rest : List Char)
    (hws : ∀ w ∈ ws, isSpace w = true) (hc : isSpace c = false) :
    readDelimiter c ⟨ws ++ c :: rest, false, false⟩ = ⟨rest, false, false⟩ := by
  simp [readDelimiter, sentry_skip ws c rest hws hc]

end Cpp

/-! ## The point loop of the babinov extractor -/

namespace babinov

open Cpp

theorem inputPoint_token (gap : List Char) (p : Point) (rest : List Char) (v : Point)
    (hgap : ∀ c ∈ gap, isSpace c = true) (hp : p.InRange) :
    inputPoint ⟨gap ++ (pointToken p ++ rest), false, false⟩ v = (⟨rest, false, false⟩, p) := by
  have h1 : pointToken p ++ rest = '(' :: (showInt p.x ++ ';' :: (showInt p.y ++ ')' :: rest)) := by
    simp [pointToken]
  have hx := readInt_showInt [] p.x (';' :: (showInt p.y ++ ')' :: rest)) 0 (by simp) hp.1
    (by intro c hc; simp at hc; subst hc; decide)
  have hy := readInt_showInt [] p.y (')' :: rest) 0 (by simp) hp.2
    (by intro c hc; simp at hc; subst hc; decide)
  have d1 := readDelimiter_match [] '(' (showInt p.x ++ ';' :: (showInt p.y ++ ')' :: rest))
    (by simp) (by decide)
  have d2 := readDelimiter_match [] ';' (showInt p.y ++ ')' :: rest) (by simp) (by decide)
  have d3 := readDelimiter_match [] ')' rest (by simp) (by decide)
  simp only [List.nil_append, List.isEmpty_cons] at hx hy d1 d2 d3
  rw [h1]
  simp only [inputPoint, sentry_skip gap '(' _ hgap (by decide), d1, hx, d2, hy, d3]
  simp [IStream.fail]

theorem inputPoint_stream_indep (s : IStream) (p q : Point) :
    (inputPoint s p).1 = (inputPoint s q).1 := by
  unfold inputPoint
  split
  · rfl
  · dsimp only
    split <;> rfl

theorem setFailIfEndOfLine_other (c : Char) (rest : List Char) (hc : c ≠ '\n') :
    setFailIfEndOfLine ⟨c :: rest, false, false⟩ = (⟨c :: rest, false, false⟩, true) := by
  simp [setFailIfEndOfLine, peek, IStream.good, hc]

theorem setFailIfEndOfLine_newline (rest : List Char) :
    setFailIfEndOfLine ⟨'\n' :: rest, false, false⟩ = (⟨'\n' :: rest, false, true⟩, true) := by
  simp [setFailIfEndOfLine, peek, IStream.good, IStream.setFail]

theorem setFailIfEndOfLine_nil :
    setFailIfEndOfLine ⟨[], false, false⟩ = (⟨[], true, false⟩, true) := by
  simp [setFailIfEndOfLine, peek, IStream.good]

theorem setFailIfEndOfLine_eof :
    setFailIfEndOfLine ⟨[], true, false⟩ = (⟨[], true, true⟩, true) := by
  simp [setFailIfEndOfLine, peek, IStream.good, IStream.setFail]

theorem inputPoint_failed (s : IStream) (v : Point) (h : s.good = false) :
    inputPoint s v = (s.setFail, v) := by
  simp [inputPoint, sentry_failed s h]

theorem copyIf_end {α : Type} (pred : IStream → IStream × Bool)
    (extract : IStream → α → IStream × α) (fuel : Nat) (s : IStream) (v : α) (out : List α) :
    copyIf pred extract fuel s ⟨v, false⟩ out = (s, out) := by
  cases fuel <;> simp [copyIf]

theorem pointTokens_head (item : List Char × Point) (items : List (List Char × Point))
    (tail : List Char) (h : ∀ c ∈ item.1, isBlank c = true) :
    ∃ c r, pointTokens (item :: items) ++ tail = c :: r ∧ c ≠ '\n' ∧ isDigit c = false := by
  cases hg : item.1 with
  | nil =>
    refine ⟨'(', showInt item.2.x ++ ';' :: (showInt item.2.y ++ [')'])
      ++ (pointTokens items ++ tail), ?_, by decide, by decide⟩
    simp [pointTokens, hg, pointToken]
  | cons c g =>
    have hb : isBlank c = true := h c (by rw [hg]; exact List.mem_cons_self _ _)
    refine ⟨c, g ++ (pointToken item.2 ++ pointTokens items) ++ tail, ?_,
      ne_newline_of_isBlank hb, ?_⟩
    · simp [pointTokens, hg]
    · cases hd : isDigit c with
      | false => rfl
      | true => have := isSpace_of_isDigit hd; have := isSpace_of_isBlank hb; simp_all

theorem length_le_pointTokens (items : List (List Char × Point)) :
    items.length ≤ (pointTokens items).length := by
  induction items with
  | nil => simp [pointTokens]
  | cons item items ih =>
    simp only [pointTokens, pointToken, List.length_append, List.length_cons]
    omega

theorem stopStream_fail (tail : List Char) (h : EndsLine tail ∨ NotAPoint tail) :
    (stopStream tail).fail = true := by
  unfold stopStream
  split
  · rfl
  · split
    · rfl
    · rcases h with h | h
      · rcases h with h | h <;> contradiction
      · exact h.2

theorem copyIf_items (tail : List Char) (htail : EndsLine tail ∨ NotAPoint tail) :
    ∀ (items : List (List Char × Point)) (fuel : Nat) (v : Point) (out : List Point),
      WellFormed items → items.length < fuel →
      copyIf setFailIfEndOfLine inputPoint fuel ⟨pointTokens items ++ tail, false, false⟩
        ⟨v, true⟩ out = (stopStream tail, out ++ v :: items.map Prod.snd) := by
  intro items
  induction items with
  | nil =>
    intro fuel v out _ hfuel
    obtain ⟨fuel, rfl⟩ : ∃ f, fuel = f + 1 := ⟨fuel - 1, by simp at hfuel; omega⟩
    simp only [pointTokens, List.nil_append, List.map_nil]
    cases tail with
    | nil =>
      simp [copyIf, setFailIfEndOfLine_nil, IstreamIterator.read,
        inputPoint_failed ⟨[], true, false⟩ v rfl, IStream.setFail, IStream.fail, copyIf_end,
        stopStream]
    | cons c r =>
      by_cases hc : c = '\n'
      · subst hc
        simp [copyIf, setFailIfEndOfLine_newline, IstreamIterator.read,
          inputPoint_failed ⟨'\n' :: r, false, true⟩ v rfl, IStream.setFail, IStream.fail,
          copyIf_end, stopStream]
      · have hnp : NotAPoint (c :: r) := by
          rcases htail with h | h
          · rcases h with h | h
            · simp at h
            · simp at h; exact absurd h hc
          · exact h
        have hfail : (inputPoint ⟨c :: r, false, false⟩ v).1.fail = true := by
          rw [inputPoint_stream_indep _ v ⟨0, 0⟩]; exact hnp.2
        have hst : stopStream (c :: r) = (inputPoint ⟨c :: r, false, false⟩ v).1 := by
          rw [inputPoint_stream_indep _ v ⟨0, 0⟩]
          simp [stopStream, hc, IStream.ofChars]
        simp [copyIf, setFailIfEndOfLine_other c r hc, IstreamIterator.read, hfail, copyIf_end, hst]
  | cons item items ih =>
    intro fuel v out hwf hfuel
    obtain ⟨fuel, rfl⟩ : ∃ f, fuel = f + 1 := ⟨fuel - 1, by simp at hfuel; omega⟩
    have hitem := hwf item (List.mem_cons_self _ _)
    have hwf2 : WellFormed items := fun i hi => hwf i (List.mem_cons_of_mem _ hi)
    obtain ⟨c, r, hcr, hc, -⟩ := pointTokens_head item items tail hitem.1
    have hread : inputPoint ⟨c :: r, false, false⟩ v
        = (⟨pointTokens items ++ tail, false, false⟩, item.2) := by
      rw [← hcr]
      have := inputPoint_token item.1 item.2 (pointTokens items ++ tail) v
        (fun c hc => isSpace_of_isBlank (hitem.1 c hc)) hitem.2
      simpa [pointTokens, List.append_assoc] using this
    rw [hcr]
    simp only [copyIf, setFailIfEndOfLine_other c r hc, IstreamIterator.read, hread, if_true]
    have := ih fuel item.2 (out ++ [v]) hwf2 (by simp at hfuel; omega)
    simpa [IStream.fail] using this

end babinov

namespace Cpp

theorem sentry_buf_le (s : IStream) : (sentry s).1.buf.length ≤ s.buf.length := by
  unfold sentry
  split
  · have h := (List.dropWhile_sublist isSpace (l := s.buf)).length_le
    split
    · simp
    · rename_i c rest heq
      rw [heq] at h
      simpa using h
  · simp [IStream.setFail]

theorem sentry_false_fail (s s0 : IStream) (h : sentry s = (s0, false)) : s0.failbit = true := by
  unfold sentry at h
  split at h
  · split at h
    · simp at h; rw [← h]
    · simp at h
  · simp at h; rw [← h]; rfl

theorem sentry_true_buf (s s0 : IStream) (h : sentry s = (s0, true)) :
    s0.buf ≠ [] ∧ s0.buf.length ≤ s.buf.length := by
  have hle := sentry_buf_le s
  rw [h] at hle
  refine ⟨?_, hle⟩
  unfold sentry at h
  split at h
  · split at h
    · simp at h
    · simp at h; rw [← h]; simp
  · simp at h

theorem scanNumber_rest_le (buf : List Char) : (scanNumber buf).2.2.length ≤ buf.length := by
  cases buf with
  | nil => simp [scanNumber]
  | cons c rest =>
    have h1 := (List.dropWhile_sublist isDigit (l := rest)).length_le
    have h2 := (List.dropWhile_sublist isDigit (l := c :: rest)).length_le
    simp only [scanNumber]
    split_ifs <;> simp only [List.length_cons] at * <;> omega

theorem readInt_buf_le (s : IStream) (old : Int) : (readInt s old).1.buf.length ≤ s.buf.length := by
  unfold readInt
  split
  · rename_i s0 hs
    have := sentry_buf_le s; rw [hs] at this; exact this
  · rename_i s0 hs
    have h0 := sentry_buf_le s
    rw [hs] at h0
    simp only at h0
    have hscan := scanNumber_rest_le s0.buf
    split
    rename_i neg ds rest hsc
    rw [hsc] at hscan
    simp only at hscan
    dsimp only
    split_ifs <;> simp only [IStream.setFail] <;> omega

theorem readInt_failed (s : IStream) (old : Int) (h : s.failbit = true) :
    (readInt s old).1.failbit = true := by
  have : s.good = false := by simp [IStream.good, h]
  simp [readInt, sentry_failed s this, IStream.setFail]

theorem readDelimiter_buf_le (c : Char) (s : IStream) :
    (readDelimiter c s).buf.length ≤ s.buf.length := by
  unfold readDelimiter
  split
  · rename_i s0 hs
    have := sentry_buf_le s; rw [hs] at this; exact this
  · rename_i s0 hs
    have h0 := sentry_buf_le s
    rw [hs] at h0
    simp only at h0
    split
    · simp
    · rename_i c' rest heq
      simp only [heq, List.length_cons] at h0
      split_ifs <;> simp only <;> omega

theorem readDelimiter_failed (c : Char) (s : IStream) (h : s.failbit = true) :
    (readDelimiter c s).failbit = true := by
  have : s.good = false := by simp [IStream.good, h]
  simp [readDelimiter, sentry_failed s this, IStream.setFail]

theorem readDelimiter_buf_lt (c : Char) (s : IStream) (h : (readDelimiter c s).failbit = false) :
    (readDelimiter c s).buf.length < s.buf.length := by
  unfold readDelimiter at h ⊢
  split at h
  · rename_i s0 hs
    rw [sentry_false_fail s s0 hs] at h
    simp at h
  · rename_i s0 hs
    have h0 := sentry_buf_le s
    rw [hs] at h0
    simp only at h0
    split
    · rename_i heq
      exact absurd heq (sentry_true_buf s s0 hs).1
    · rename_i c' rest heq
      simp only [heq, List.length_cons] at h0
      split_ifs <;> simp only <;> omega

end Cpp

namespace babinov

open Cpp

theorem inputPoint_buf_lt (s : IStream) (v : Point) (h : (inputPoint s v).1.failbit = false) :
    (inputPoint s v).1.buf.length < s.buf.length := by
  unfold inputPoint at h ⊢
  split at h
  · rename_i s0 hs
    rw [sentry_false_fail s s0 hs] at h
    simp at h
  · rename_i s0 hs
    have h0 := sentry_buf_le s
    rw [hs] at h0
    simp only at h0
    have key : (readDelimiter ')' (readInt (readDelimiter ';'
        (readInt (readDelimiter '(' s0) 0).1) 0).1).failbit = false := by
      dsimp only at h
      split_ifs at h with hf
      · exact absurd hf (by simpa using h)
      · simpa [IStream.fail] using hf
    have k4 : (readInt (readDelimiter ';' (readInt (readDelimiter '(' s0) 0).1) 0).1.failbit
        = false := by
      cases hb : (readInt (readDelimiter ';' (readInt (readDelimiter '(' s0) 0).1) 0).1.failbit
      · rfl
      · rw [readDelimiter_failed _ _ hb] at key; exact absurd key (by simp)
    have k3 : (readDelimiter ';' (readInt (readDelimiter '(' s0) 0).1).failbit = false := by
      cases hb : (readDelimiter ';' (readInt (readDelimiter '(' s0) 0).1).failbit
      · rfl
      · rw [readInt_failed _ _ hb] at k4; exact absurd k4 (by simp)
    have k2 : (readInt (readDelimiter '(' s0) 0).1.failbit = false := by
      cases hb : (readInt (readDelimiter '(' s0) 0).1.failbit
      · rfl
      · rw [readDelimiter_failed _ _ hb] at k3; exact absurd k3 (by simp)
    have k1 : (readDelimiter '(' s0).failbit = false := by
      cases hb : (readDelimiter '(' s0).failbit
      · rfl
      · rw [readInt_failed _ _ hb] at k2; exact absurd k2 (by simp)
    have l1 := readDelimiter_buf_lt '(' s0 k1
    have l2 := readInt_buf_le (readDelimiter '(' s0) 0
    have l3 := readDelimiter_buf_le ';' (readInt (readDelimiter '(' s0) 0).1
    have l4 := readInt_buf_le (readDelimiter ';' (readInt (readDelimiter '(' s0) 0).1) 0
    have l5 := readDelimiter_buf_le ')'
      (readInt (readDelimiter ';' (readInt (readDelimiter '(' s0) 0).1) 0).1
    dsimp only
    split_ifs <;> simp only <;> omega

theorem setFailIfEndOfLine_buf (s : IStream) : (setFailIfEndOfLine s).1.buf = s.buf := by
  unfold setFailIfEndOfLine peek
  split_ifs <;> (try split) <;> simp_all [IStream.setFail]

/-- The bound on the rounds of the point loop is never what stops it: any two
bounds above the length of the unread input give the same result. -/
theorem copyIf_points_bound_irrelevant :
    ∀ (f1 f2 : Nat) (s : IStream) (it : IstreamIterator Point) (out : List Point),
      s.buf.length < f1 → s.buf.length < f2 →
      copyIf setFailIfEndOfLine inputPoint f1 s it out
        = copyIf setFailIfEndOfLine inputPoint f2 s it out := by
  intro f1
  induction f1 with
  | zero => intro f2 s it out h; omega
  | succ f1 ih =>
    intro f2 s it out h1 h2
    obtain ⟨f2, rfl⟩ : ∃ f, f2 = f + 1 := ⟨f2 - 1, by omega⟩
    obtain ⟨v, ok⟩ := it
    cases ok with
    | false => simp [copyIf]
    | true =>
      simp only [copyIf, if_true, IstreamIterator.read]
      cases hf : (inputPoint (setFailIfEndOfLine s).1 v).1.failbit with
      | true => simp [IStream.fail, hf, copyIf_end]
      | false =>
        have hlt := inputPoint_buf_lt (setFailIfEndOfLine s).1 v hf
        rw [setFailIfEndOfLine_buf] at hlt
        exact ih f2 _ _ _ (by omega) (by omega)

theorem stopStream_clear_endsLine (tail : List Char) (h : EndsLine tail) :
    (stopStream tail).clear = ⟨tail, false, false⟩ := by
  rcases h with h | h
  · subst h; simp [stopStream, IStream.clear]
  · have hne : tail ≠ [] := by rintro rfl; simp at h
    simp [stopStream, hne, h, IStream.clear]

theorem inputPolygon_record (pre : List Char) (n : Nat) (items : List (List Char × Point))
    (tail : List Char) (polygon : Polygon)
    (hpre : ∀ c ∈ pre, isSpace c = true) (hn3 : 3 ≤ n) (hnmax : (n : Int) ≤ intMax)
    (hwf : WellFormed items) (htail : EndsLine tail ∨ NotAPoint tail) :
    inputPolygon (IStream.ofChars (pre ++ (showNat n ++ (pointTokens items ++ tail)))) polygon =
      if items = [] ∧ EndsLine tail then (stopStream tail, polygon)
      else if items.length = n then ((stopStream tail).clear, ⟨items.map Prod.snd⟩)
      else (stopStream tail, ⟨[]⟩) := by
  have hrest : ∀ c, (pointTokens items ++ tail).head? = some c → isDigit c = false := by
    cases items with
    | nil =>
      simp only [pointTokens, List.nil_append]
      rcases htail with h | h
      · rcases h with h | h
        · subst h; simp
        · intro c hc; rw [h] at hc; cases hc; decide
      · exact h.1
    | cons item items =>
      obtain ⟨c, r, hcr, -, hd⟩ := pointTokens_head item items tail (hwf item (List.mem_cons_self _ _)).1
      rw [hcr]; intro c' hc'; simp at hc'; subst hc'; exact hd
  obtain ⟨d, ds, hd, hsp⟩ := showNat_head_not_space n (pointTokens items ++ tail)
  have hs : sentry (IStream.ofChars (pre ++ (showNat n ++ (pointTokens items ++ tail))))
      = (⟨showNat n ++ (pointTokens items ++ tail), false, false⟩, true) := by
    rw [hd]; exact sentry_skip pre d ds hpre hsp
  have hr := readInt_showNat [] n (pointTokens items ++ tail) 0 (by simp) hnmax hrest
  simp only [List.nil_append] at hr
  have hn3' : ¬ ((n : Int) < 3) := by omega
  simp only [inputPolygon, hs, hr, hn3', if_false, Int.toNat_ofNat]
  cases items with
  | nil =>
    simp only [pointTokens, List.nil_append, List.length_nil, List.map_nil, true_and]
    cases tail with
    | nil =>
      simp [setFailIfEndOfLine_eof, IStream.fail, EndsLine, stopStream]
    | cons c r =>
      by_cases hc : c = '\n'
      · subst hc
        simp [setFailIfEndOfLine_newline, IStream.fail, EndsLine, stopStream]
      · have hnp : NotAPoint (c :: r) := by
          rcases htail with h | h
          · rcases h with h | h
            · simp at h
            · simp at h; exact absurd h hc
          · exact h
        have hfail : (inputPoint ⟨c :: r, false, false⟩ ⟨0, 0⟩).1.failbit = true := hnp.2
        have hst : stopStream (c :: r) = (inputPoint ⟨c :: r, false, false⟩ ⟨0, 0⟩).1 := by
          simp [stopStream, hc, IStream.ofChars]
        have hne : ¬ EndsLine (c :: r) := by simp [EndsLine, hc]
        have h0 : ¬ (0 = n) := by omega
        simp [setFailIfEndOfLine_other c r hc, IStream.fail, IstreamIterator.read, hfail,
          copyIf_end, hst, hne, h0]
  | cons item items =>
    have hitem := hwf item (List.mem_cons_self _ _)
    have hwf2 : WellFormed items := fun i hi => hwf i (List.mem_cons_of_mem _ hi)
    obtain ⟨c, r, hcr, hc, -⟩ := pointTokens_head item items tail hitem.1
    have hread : inputPoint ⟨c :: r, false, false⟩ ⟨0, 0⟩
        = (⟨pointTokens items ++ tail, false, false⟩, item.2) := by
      rw [← hcr]
      have := inputPoint_token item.1 item.2 (pointTokens items ++ tail) ⟨0, 0⟩
        (fun c hc => isSpace_of_isBlank (hitem.1 c hc)) hitem.2
      simpa [pointTokens, List.append_assoc] using this
    have hloop := copyIf_items tail htail items ((pointTokens items ++ tail).length + 1) item.2 []
      hwf2 (by have := length_le_pointTokens items; simp only [List.length_append]; omega)
    rw [hcr]
    simp only [List.isEmpty_cons, setFailIfEndOfLine_other c r hc, IstreamIterator.read, hread,
      if_true]
    simp only [IStream.fail, Bool.false_eq_true, if_false, Bool.not_false, hloop]
    simp only [List.nil_append, List.length_cons, List.length_map, List.map_cons, reduceCtorEq,
      false_and, if_false]
    by_cases hlen : items.length + 1 = n
    · simp [hlen]
    · simp [hlen]

end babinov

/-! ## The erohin extractor on its own output -/

namespace Cpp

theorem readSize_showNat (ws : List Char) (n : Nat) (rest : List Char) (old : Nat)
    (hws : ∀ w ∈ ws, isSpace w = true)
    (hn : n ≤ sizeMax)
    (hrest : ∀ c, rest.head? = some c → isDigit c = false) :
    readSize ⟨ws ++ (showNat n ++ rest), false, false⟩ old = (⟨rest, rest.isEmpty, false⟩, n) := by
  obtain ⟨d, ds, hd, hsp⟩ := showNat_head_not_space n rest
  have hne : (showNat n).isEmpty = false := by
    cases hs : showNat n with
    | nil => exact absurd hs (showNat_ne_nil n)
    | cons _ _ => rfl
  have hhi : ¬ (sizeMax < n) := by omega
  simp only [readSize, hd, sentry_skip ws d ds hws hsp]
  rw [← hd, scanNumber_showNat n rest hrest]
  simp [hne, digitsValue_showNat, hhi]

theorem copyN_length {α : Type} (extract : IStream → α → IStream × α) :
    ∀ (n : Nat) (s : IStream) (it : IstreamIterator α) (out : List α),
      (copyN extract n s it out).2.length = out.length + n := by
  intro n
  induction n with
  | zero => intro s it out; simp [copyN]
  | succ n ih =>
    intro s it out
    by_cases h : n = 0
    · subst h; simp [copyN]
    · simp only [copyN, h, if_false]
      rw [ih]; simp; omega

theorem copyN_step {α : Type} (extract : IStream → α → IStream × α) (n : Nat) (s : IStream)
    (it : IstreamIterator α) (out : List α) :
    copyN extract (n + 2) s it out
      = copyN extract (n + 1) (it.read extract s).1 (it.read extract s).2 (out ++ [it.value]) := by
  rw [copyN]; simp

end Cpp

namespace erohin

open Cpp

theorem inputPoint_output (temp : Point) (gap : List Char) (p : Point) (rest : List Char)
    (v : Point) (hgap : ∀ c ∈ gap, isSpace c = true) (hp : p.InRange) :
    inputPoint temp ⟨gap ++ (outputPoint p ++ rest), false, false⟩ v = (⟨rest, false, false⟩, p) := by
  have h1 : outputPoint p ++ rest = '(' :: (showInt p.x ++ ';' :: (showInt p.y ++ ')' :: rest)) := by
    simp [outputPoint]
  have hx := readInt_showInt [] p.x (';' :: (showInt p.y ++ ')' :: rest)) v.x (by simp) hp.1
    (by intro c hc; simp at hc; subst hc; decide)
  have hy := readInt_showInt [] p.y (')' :: rest) v.y (by simp) hp.2
    (by intro c hc; simp at hc; subst hc; decide)
  have d1 := readDelimiter_match [] '(' (showInt p.x ++ ';' :: (showInt p.y ++ ')' :: rest))
    (by simp) (by decide)
  have d2 := readDelimiter_match [] ';' (showInt p.y ++ ')' :: rest) (by simp) (by decide)
  have d3 := readDelimiter_match [] ')' rest (by simp) (by decide)
  simp only [List.nil_append, List.isEmpty_cons] at hx hy d1 d2 d3
  rw [h1]
  simp only [inputPoint, sentry_skip gap '(' _ hgap (by decide), d1, hx, d2, hy, d3]
  simp [IStream.fail]

theorem copyN_outputPoints (temp : Point) (rest : List Char) :
    ∀ (ps : List Point) (v : Point) (out : List Point), (∀ q ∈ ps, q.InRange) →
      copyN (inputPoint temp) (ps.length + 1)
        ⟨' ' :: (outputPoints ps ++ rest), false, false⟩ ⟨v, true⟩ out
        = (⟨' ' :: rest, false, false⟩, out ++ v :: ps) := by
  intro ps
  induction ps with
  | nil => intro v out _; simp [copyN, outputPoints]
  | cons p ps ih =>
    intro v out hps
    have hread : inputPoint temp ⟨' ' :: (outputPoints (p :: ps) ++ rest), false, false⟩ v
        = (⟨' ' :: (outputPoints ps ++ rest), false, false⟩, p) := by
      have := inputPoint_output temp [' '] p (' ' :: (outputPoints ps ++ rest)) v
        (by intro c hc; simp at hc; subst hc; decide) (hps p (List.mem_cons_self _ _))
      simpa [outputPoints, List.append_assoc] using this
    have := ih p (out ++ [v]) (fun q hq => hps q (List.mem_cons_of_mem _ hq))
    rw [List.length_cons, copyN_step]
    simp only [IstreamIterator.read, if_true, hread]
    simpa [IStream.fail] using this

end erohin

/-! ## Extremal points and right angles -/

namespace Cpp

theorem minmaxLoop_preserves {α : Type} (comp : α → α → Bool) (P : α → Prop) :
    ∀ (rest : List α) (mn mx : α), P mn → P mx → (∀ x ∈ rest, P x) →
      P (minmaxLoop comp mn mx rest).1 ∧ P (minmaxLoop comp mn mx rest).2
  | [], mn, mx, h1, h2, _ => by simp [minmaxLoop, h1, h2]
  | [f], mn, mx, h1, h2, h3 => by
    have hf : P f := h3 f (by simp)
    simp only [minmaxLoop]
    split_ifs <;> simp [h1, h2, hf]
  | f :: n :: rest, mn, mx, h1, h2, h3 => by
    have hf : P f := h3 f (by simp)
    have hn : P n := h3 n (by simp)
    have hr : ∀ x ∈ rest, P x := fun x hx => h3 x (by simp [hx])
    simp only [minmaxLoop]
    split_ifs <;> apply minmaxLoop_preserves comp P rest <;> assumption

theorem minmaxElement_mem {α : Type} (comp : α → α → Bool) (l : List α) (h : l ≠ []) :
    ∃ mn mx, minmaxElement comp l = some (mn, mx) ∧ mn ∈ l ∧ mx ∈ l := by
  match l, h with
  | [a], _ => exact ⟨a, a, rfl, by simp, by simp⟩
  | a :: b :: rest, _ =>
    have ha : a ∈ a :: b :: rest := by simp
    have hb : b ∈ a :: b :: rest := by simp
    have hr : ∀ x ∈ rest, x ∈ a :: b :: rest := fun x hx => by simp [hx]
    simp only [minmaxElement]
    split_ifs
    · have := minmaxLoop_preserves comp (· ∈ a :: b :: rest) rest b a hb ha hr
      exact ⟨_, _, rfl, this.1, this.2⟩
    · have := minmaxLoop_preserves comp (· ∈ a :: b :: rest) rest a b ha hb hr
      exact ⟨_, _, rfl, this.1, this.2⟩

end Cpp

namespace babinov

open Cpp

theorem getLength_eq_zero_iff (v : Vector) :
    v.getLength = 0 ↔ v.coords.x = 0 ∧ v.coords.y = 0 := by
  unfold Vector.getLength
  rw [Real.sqrt_eq_zero (by positivity)]
  constructor
  · intro h
    have hx : (v.coords.x : ℝ) = 0 := by nlinarith [sq_nonneg (v.coords.x : ℝ), sq_nonneg (v.coords.y : ℝ)]
    have hy : (v.coords.y : ℝ) = 0 := by nlinarith [sq_nonneg (v.coords.x : ℝ), sq_nonneg (v.coords.y : ℝ)]
    exact ⟨by exact_mod_cast hx, by exact_mod_cast hy⟩
  · rintro ⟨hx, hy⟩
    simp [hx, hy]

theorem findCosBetween_eq_zero_iff (u v : Vector) :
    u.findCosBetween v = some 0 ↔
      ¬ (u.coords.x = 0 ∧ u.coords.y = 0) ∧ ¬ (v.coords.x = 0 ∧ v.coords.y = 0)
        ∧ u.coords.x * v.coords.x + u.coords.y * v.coords.y = 0 := by
  unfold Vector.findCosBetween
  by_cases hden : u.getLength * v.getLength = 0
  · rw [if_pos hden]
    rcases mul_eq_zero.mp hden with h | h
    · have := (getLength_eq_zero_iff u).mp h
      simp [this]
    · have := (getLength_eq_zero_iff v).mp h
      simp [this]
  · rw [if_neg hden]
    have hu : ¬ (u.coords.x = 0 ∧ u.coords.y = 0) := fun h =>
      hden (by rw [(getLength_eq_zero_iff u).mpr h, zero_mul])
    have hv : ¬ (v.coords.x = 0 ∧ v.coords.y = 0) := fun h =>
      hden (by rw [(getLength_eq_zero_iff v).mpr h, mul_zero])
    simp only [Option.some.injEq, div_eq_zero_iff, hden, or_false, Vector.dot]
    constructor
    · intro h
      exact ⟨hu, hv, by exact_mod_cast h⟩
    · rintro ⟨-, -, h⟩
      exact_mod_cast h

theorem isRectangle_four (v0 v1 v2 v3 : Point) :
    isRectangle ⟨[v0, v1, v2, v3]⟩ = true ↔ RectangleCorners v0 v1 v2 v3 := by
  simp only [isRectangle, Bool.and_eq_true, decide_eq_true_eq, findCosBetween_eq_zero_iff,
    Vector.mk2, RectangleCorners]
  constructor
  · rintro ⟨⟨⟨ha, hb, hab⟩, ⟨-, hc, hbc⟩⟩, ⟨-, hd, hcd⟩⟩
    -- w = a + c is orthogonal to b and to c, and b, c are orthogonal and non-zero
    have hbsq : (v2.x - v1.x) ^ 2 + (v2.y - v1.y) ^ 2 ≠ 0 := by
      intro h
      apply hb
      constructor <;> nlinarith [sq_nonneg (v2.x - v1.x), sq_nonneg (v2.y - v1.y)]
    have hcsq : (v3.x - v2.x) ^ 2 + (v3.y - v2.y) ^ 2 ≠ 0 := by
      intro h
      apply hc
      constructor <;> nlinarith [sq_nonneg (v3.x - v2.x), sq_nonneg (v3.y - v2.y)]
    have hcross : ((v2.x - v1.x) * (v3.y - v2.y) - (v2.y - v1.y) * (v3.x - v2.x)) ^ 2
        = ((v2.x - v1.x) ^ 2 + (v2.y - v1.y) ^ 2) * ((v3.x - v2.x) ^ 2 + (v3.y - v2.y) ^ 2) := by
      have : ((v2.x - v1.x) * (v3.y - v2.y) - (v2.y - v1.y) * (v3.x - v2.x)) ^ 2
          = ((v2.x - v1.x) ^ 2 + (v2.y - v1.y) ^ 2) * ((v3.x - v2.x) ^ 2 + (v3.y - v2.y) ^ 2)
            - ((v2.x - v1.x) * (v3.x - v2.x) + (v2.y - v1.y) * (v3.y - v2.y)) ^ 2 := by ring
      rw [this, hbc]; ring
    have hdet : (v2.x - v1.x) * (v3.y - v2.y) - (v2.y - v1.y) * (v3.x - v2.x) ≠ 0 := by
      intro h
      rw [h] at hcross
      have := mul_ne_zero hbsq hcsq
      apply this
      rw [← hcross]; ring
    have hwb : ((v1.x - v0.x) + (v3.x - v2.x)) * (v2.x - v1.x)
        + ((v1.y - v0.y) + (v3.y - v2.y)) * (v2.y - v1.y) = 0 := by linear_combination hab + hbc
    have hwc : ((v1.x - v0.x) + (v3.x - v2.x)) * (v3.x - v2.x)
        + ((v1.y - v0.y) + (v3.y - v2.y)) * (v3.y - v2.y) = 0 := by linear_combination hcd - hbc
    have hwx : ((v1.x - v0.x) + (v3.x - v2.x))
        * ((v2.x - v1.x) * (v3.y - v2.y) - (v2.y - v1.y) * (v3.x - v2.x)) = 0 := by
      linear_combination (v3.y - v2.y) * hwb - (v2.y - v1.y) * hwc
    have hwy : ((v1.y - v0.y) + (v3.y - v2.y))
        * ((v2.x - v1.x) * (v3.y - v2.y) - (v2.y - v1.y) * (v3.x - v2.x)) = 0 := by
      linear_combination (v2.x - v1.x) * hwc - (v3.x - v2.x) * hwb
    have hx := (mul_eq_zero.mp hwx).resolve_right hdet
    have hy := (mul_eq_zero.mp hwy).resolve_right hdet
    refine ⟨by omega, by omega, hab, ?_, ?_⟩
    · rintro rfl; exact ha ⟨by omega, by omega⟩
    · rintro rfl; exact hb ⟨by omega, by omega⟩
  · rintro ⟨hx, hy, hab, h01, h12⟩
    have ha : ¬ (v1.x - v0.x = 0 ∧ v1.y - v0.y = 0) := by
      rintro ⟨h1, h2⟩
      apply h01
      cases v0; cases v1; simp only [Point.mk.injEq] at *; constructor <;> omega
    have hb : ¬ (v2.x - v1.x = 0 ∧ v2.y - v1.y = 0) := by
      rintro ⟨h1, h2⟩
      apply h12
      cases v1; cases v2; simp only [Point.mk.injEq] at *; constructor <;> omega
    have hc : ¬ (v3.x - v2.x = 0 ∧ v3.y - v2.y = 0) := by
      rintro ⟨h1, h2⟩; exact ha ⟨by omega, by omega⟩
    have hd : ¬ (v3.x - v0.x = 0 ∧ v3.y - v0.y = 0) := by
      rintro ⟨h1, h2⟩; exact hb ⟨by omega, by omega⟩
    have ecx : v3.x - v2.x = -(v1.x - v0.x) := by omega
    have ecy : v3.y - v2.y = -(v1.y - v0.y) := by omega
    have edx : v3.x - v0.x = v2.x - v1.x := by omega
    have edy : v3.y - v0.y = v2.y - v1.y := by omega
    refine ⟨⟨⟨ha, hb, hab⟩, ⟨hb, hc, ?_⟩⟩, ⟨hc, hd, ?_⟩⟩
    · rw [ecx, ecy]; linear_combination -hab
    · rw [ecx, ecy, edx, edy]; linear_combination -hab

end babinov

/-! ## The claims -/

namespace erohin

open Cpp

/-- C1: round trip of erohin's polygon text.  For every polygon `p` with at
least three vertices whose coordinates are `int` values, the extractor applied
to a fresh stream holding the text the inserter writes for `p` (followed by
any further input `rest`) returns without failure, nothing is thrown, and the
target polygon equals `p`: same points, same order.  The stream is left in
front of the blank that follows the last point. -/
theorem erohin_polygon_round_trip (maxSize : Nat) (temp : Point) (p target : Polygon)
    (rest : List Char) (h3 : 3 ≤ p.points.length) (hrange : ∀ q ∈ p.points, q.InRange)
    (hmax : p.points.length ≤ maxSize) (hsize : maxSize ≤ sizeMax) :
    inputPolygon maxSize temp (IStream.ofChars (outputPolygon p ++ rest)) target
      = ⟨⟨' ' :: rest, false, false⟩, p, false⟩ := by
  obtain ⟨ps⟩ := p
  cases ps with
  | nil => simp at h3
  | cons q qs =>
    simp only [List.length_cons] at h3 hmax
    obtain ⟨d, ds, hd, hsp⟩ := showNat_head_not_space (qs.length + 1)
      (' ' :: (outputPoints (q :: qs) ++ rest))
    have hs : sentry (IStream.ofChars (outputPolygon ⟨q :: qs⟩ ++ rest))
        = (⟨showNat (qs.length + 1) ++ ' ' :: (outputPoints (q :: qs) ++ rest), false, false⟩,
            true) := by
      have := sentry_nonspace d ds hsp
      rw [← hd] at this
      simpa [outputPolygon, IStream.ofChars, List.append_assoc] using this
    have hr := readSize_showNat [] (qs.length + 1) (' ' :: (outputPoints (q :: qs) ++ rest)) 0
      (by simp) (by omega) (by intro c hc; simp at hc; subst hc; decide)
    simp only [List.nil_append, List.isEmpty_cons] at hr
    have hread : inputPoint temp ⟨' ' :: (outputPoints (q :: qs) ++ rest), false, false⟩ temp
        = (⟨' ' :: (outputPoints qs ++ rest), false, false⟩, q) := by
      have := inputPoint_output temp [' '] q (' ' :: (outputPoints qs ++ rest)) temp
        (by intro c hc; simp at hc; subst hc; decide) (hrange q (List.mem_cons_self _ _))
      simpa [outputPoints, List.append_assoc] using this
    have hloop := copyN_outputPoints temp rest qs q []
      (fun r hr => hrange r (List.mem_cons_of_mem _ hr))
    have h3' : ¬ (qs.length + 1 < 3) := by omega
    have hm' : ¬ (maxSize < qs.length + 1) := by omega
    simp only [inputPolygon, hs, hr, h3', hm', if_false, IstreamIterator.read, if_true, hread]
    simp only [IStream.fail, Bool.not_false, hloop]
    simp

/-- The round trip of C1 on the triangle `(0;0) (-4;0) (0;3)`. -/
theorem erohin_polygon_round_trip_witness :
    inputPolygon 1000 ⟨0, 0⟩
        (IStream.ofChars (outputPolygon ⟨[⟨0, 0⟩, ⟨-4, 0⟩, ⟨0, 3⟩]⟩ ++ [])) ⟨[]⟩
      = ⟨⟨[' '], false, false⟩, ⟨[⟨0, 0⟩, ⟨-4, 0⟩, ⟨0, 3⟩]⟩, false⟩ :=
  erohin_polygon_round_trip 1000 ⟨0, 0⟩ ⟨[⟨0, 0⟩, ⟨-4, 0⟩, ⟨0, 3⟩]⟩ ⟨[]⟩ [] (by decide) (by decide)
    (by decide) (by decide)

/-- C7: atomicity of erohin's polygon extractor.  Whenever the call ends with
the stream in the fail state or by throwing, the target polygon is exactly
what it was before the call; and whenever it ends otherwise, the polygon
holds as many points as the count that was read, which is at least three. -/
theorem erohin_inputPolygon_atomic (maxSize : Nat) (temp : Point) (s : IStream)
    (polygon : Polygon) :
    (((inputPolygon maxSize temp s polygon).stream.fail = true
        ∨ (inputPolygon maxSize temp s polygon).thrown = true)
      → (inputPolygon maxSize temp s polygon).polygon = polygon)
    ∧ ((inputPolygon maxSize temp s polygon).stream.fail = false
        → (inputPolygon maxSize temp s polygon).thrown = false
        → (inputPolygon maxSize temp s polygon).polygon.points.length
            = (readSize (sentry s).1 0).2
          ∧ 3 ≤ (readSize (sentry s).1 0).2) := by
  unfold inputPolygon
  split
  · rename_i s0 hs
    have hfail : s0.fail = true := by
      unfold sentry at hs
      split at hs
      · split at hs <;> simp at hs
        rw [← hs]; rfl
      · simp at hs; rw [← hs]; rfl
    simp [hfail]
  · rename_i s0 hs
    simp only [hs]
    by_cases hc : (readSize s0 0).2 < 3
    · simp [hc, IStream.setFail, IStream.fail]
    · by_cases hm : maxSize < (readSize s0 0).2
      · simp [hc, hm]
      · simp only [hc, hm, if_false]
        split
        · rename_i hf
          simp [hf]
        · rename_i hf
          simp [hf, copyN_length]
          omega

/-- The first part of C7 on the input `3 (0;0) (1;1) (2;`, whose third point
is cut short: the target polygon is untouched. -/
theorem erohin_inputPolygon_atomic_witness :
    (inputPolygon 1000 ⟨0, 0⟩ (IStream.ofChars "3 (0;0) (1;1) (2;".toList)
      ⟨[⟨7, 7⟩, ⟨8, 8⟩, ⟨9, 9⟩]⟩).polygon = ⟨[⟨7, 7⟩, ⟨8, 8⟩, ⟨9, 9⟩]⟩ :=
  (erohin_inputPolygon_atomic 1000 ⟨0, 0⟩ (IStream.ofChars "3 (0;0) (1;1) (2;".toList)
    ⟨[⟨7, 7⟩, ⟨8, 8⟩, ⟨9, 9⟩]⟩).1 (Or.inl (by decide))

end erohin

namespace babinov

open Cpp

/-- C2: success of babinov's polygon extractor.  For a record made of the
count `N >= 3`, then exactly `N` well-formed points on the same line (each
after a gap of blanks), then the end of the line (a newline or the end of the
input), read from a fresh stream after any leading white space: the stream is
left good, in front of the end of the line, and the polygon holds exactly the
`N` points in the order they were read, whatever it held before. -/
theorem babinov_inputPolygon_success (pre : List Char) (items : List (List Char × Point))
    (tail : List Char) (polygon : Polygon)
    (hpre : ∀ c ∈ pre, isSpace c = true) (h3 : 3 ≤ items.length)
    (hmax : (items.length : Int) ≤ intMax) (hwf : WellFormed items) (htail : EndsLine tail) :
    inputPolygon
        (IStream.ofChars (pre ++ (showNat items.length ++ (pointTokens items ++ tail)))) polygon
      = (⟨tail, false, false⟩, ⟨items.map Prod.snd⟩) := by
  rw [inputPolygon_record pre items.length items tail polygon hpre h3 hmax hwf (Or.inl htail)]
  have hne : items ≠ [] := by rintro rfl; simp at h3
  simp [hne, stopStream_clear_endsLine tail htail]

/-- The success of C2 on the record `4 (0;0) (0;1) (1;1) (1;0)` followed by
a newline and the start of another record. -/
theorem babinov_inputPolygon_success_witness :
    inputPolygon
        (IStream.ofChars ([] ++ (showNat 4 ++ (pointTokens
          [([' '], ⟨0, 0⟩), ([' '], ⟨0, 1⟩), ([' '], ⟨1, 1⟩), ([' '], ⟨1, 0⟩)]
            ++ ['\n', '3', ' ', '(']))))
        ⟨[⟨9, 9⟩]⟩
      = (⟨['\n', '3', ' ', '('], false, false⟩, ⟨[⟨0, 0⟩, ⟨0, 1⟩, ⟨1, 1⟩, ⟨1, 0⟩]⟩) :=
  babinov_inputPolygon_success []
    [([' '], ⟨0, 0⟩), ([' '], ⟨0, 1⟩), ([' '], ⟨1, 1⟩), ([' '], ⟨1, 0⟩)] ['\n', '3', ' ', '(']
    ⟨[⟨9, 9⟩]⟩ (by decide) (by decide) (by decide) (by decide) (by decide)

/-- C3, the code at the record `2 (0;0) (1;1)`: the polygon is emptied and the
points are not consumed, but the stream is returned in the good state, so
the caller is not told of a failure. -/
theorem babinov_small_count_leaves_stream_good :
    inputPolygon (IStream.ofChars "2 (0;0) (1;1)".toList) ⟨[⟨7, 7⟩, ⟨8, 8⟩, ⟨9, 9⟩]⟩
      = (⟨" (0;0) (1;1)".toList, false, false⟩, ⟨[]⟩) := by
  decide

/-- C4, the code at the record `3 (0;0) ` (one point, then a blank and the
end of the line) followed by the line `(1;0) (0;1)`: the extractor does not
fail; it returns a polygon of three points collected from both lines. -/
theorem babinov_blank_before_newline_continues :
    (inputPolygon (IStream.ofChars "3 (0;0) \n(1;0) (0;1)\n".toList) ⟨[]⟩).1.fail = false
      ∧ (inputPolygon (IStream.ofChars "3 (0;0) \n(1;0) (0;1)\n".toList) ⟨[]⟩).2
          = ⟨[⟨0, 0⟩, ⟨1, 0⟩, ⟨0, 1⟩]⟩ := by
  decide

/-- C5 as stated fails: on the record `3 (0;0) (1;0) (0;1) (5;5)`, which has
one well-formed point more than its count, the extractor fails and empties
the polygon. -/
theorem babinov_extra_point_fails :
    inputPolygon (IStream.ofChars "3 (0;0) (1;0) (0;1) (5;5)\n".toList) ⟨[⟨9, 9⟩]⟩
      = (⟨['\n'], false, true⟩, ⟨[]⟩) := by
  decide

/-- C5, amended: for a record with count `N >= 3` and `N` well-formed points
on the line, followed by further well-formed points `extra` and then by
the end of the line or by something the point extractor rejects: when there is no
further point the extractor succeeds with exactly the `N` points, the stream
being the cleared stream the point loop stopped on; when there is at least one
further point it fails and empties the polygon.  The loop always stops on a
failed stream. -/
theorem babinov_inputPolygon_trailing (pre : List Char) (items extra : List (List Char × Point))
    (tail : List Char) (polygon : Polygon)
    (hpre : ∀ c ∈ pre, isSpace c = true) (h3 : 3 ≤ items.length)
    (hmax : (items.length : Int) ≤ intMax) (hwf : WellFormed (items ++ extra))
    (htail : EndsLine tail ∨ NotAPoint tail) :
    (stopStream tail).fail = true
    ∧ inputPolygon
        (IStream.ofChars
          (pre ++ (showNat items.length ++ (pointTokens (items ++ extra) ++ tail)))) polygon
      = (if extra = [] then ((stopStream tail).clear, ⟨items.map Prod.snd⟩)
          else (stopStream tail, ⟨[]⟩)) := by
  refine ⟨stopStream_fail tail htail, ?_⟩
  rw [inputPolygon_record pre items.length (items ++ extra) tail polygon hpre h3 hmax hwf htail]
  have hne : items ≠ [] := by rintro rfl; simp at h3
  by_cases he : extra = []
  · subst he; simp [hne]
  · have hlen : (items ++ extra).length ≠ items.length := by
      have : 0 < extra.length := List.length_pos.mpr he
      rw [List.length_append]; omega
    simp [hne, he, hlen]

/-- The amended C5 on `3 (0;0) (1;0) (0;1) (5;5)` and a newline. -/
theorem babinov_inputPolygon_trailing_witness :
    (stopStream ['\n']).fail = true
    ∧ inputPolygon
        (IStream.ofChars
          ([] ++ (showNat [([' '], (⟨0, 0⟩ : Point)), ([' '], ⟨1, 0⟩), ([' '], ⟨0, 1⟩)].length
            ++ (pointTokens ([([' '], ⟨0, 0⟩), ([' '], ⟨1, 0⟩), ([' '], ⟨0, 1⟩)]
              ++ [([' '], ⟨5, 5⟩)]) ++ ['\n'])))) ⟨[⟨9, 9⟩]⟩
      = (if [([' '], (⟨5, 5⟩ : Point))] = [] then ((stopStream ['\n']).clear,
            ⟨[([' '], (⟨0, 0⟩ : Point)), ([' '], ⟨1, 0⟩), ([' '], ⟨0, 1⟩)].map Prod.snd⟩)
          else (stopStream ['\n'], ⟨[]⟩)) :=
  babinov_inputPolygon_trailing [] [([' '], ⟨0, 0⟩), ([' '], ⟨1, 0⟩), ([' '], ⟨0, 1⟩)]
    [([' '], ⟨5, 5⟩)] ['\n'] ⟨[⟨9, 9⟩]⟩ (by decide) (by decide) (by decide) (by decide)
    (Or.inl (by decide))

/-- C6, the code at the record `3` followed directly by a newline: the call
fails, and the target polygon still holds the three points it held before. -/
theorem babinov_count_then_newline_keeps_polygon :
    inputPolygon (IStream.ofChars "3\n".toList) ⟨[⟨0, 0⟩, ⟨1, 0⟩, ⟨0, 1⟩]⟩
      = (⟨['\n'], false, true⟩, ⟨[⟨0, 0⟩, ⟨1, 0⟩, ⟨0, 1⟩]⟩) := by
  decide

/-- C9 as stated fails: for the squares `(0;0) (0;1) (1;1) (1;0)` and
`(2;0) (2;1) (3;1) (3;0)` the selected points are `(0;0)`, `(1;0)` and
`(2;0)`, `(3;0)`; `isIntersect` answers true although the intervals of the
abscissas do not overlap. -/
theorem babinov_isIntersect_not_axis_overlap :
    minmaxElement isPointFurther [⟨0, 0⟩, ⟨0, 1⟩, ⟨1, 1⟩, ⟨1, 0⟩]
        = some ((⟨0, 0⟩ : Point), (⟨1, 0⟩ : Point))
    ∧ minmaxElement isPointFurther [⟨2, 0⟩, ⟨2, 1⟩, ⟨3, 1⟩, ⟨3, 0⟩]
        = some ((⟨2, 0⟩ : Point), (⟨3, 0⟩ : Point))
    ∧ isIntersect ⟨[⟨0, 0⟩, ⟨0, 1⟩, ⟨1, 1⟩, ⟨1, 0⟩]⟩ ⟨[⟨2, 0⟩, ⟨2, 1⟩, ⟨3, 1⟩, ⟨3, 0⟩]⟩ = some true
    ∧ ¬ AxisOverlap ⟨0, 0⟩ ⟨1, 0⟩ ⟨2, 0⟩ ⟨3, 0⟩ := by
  decide

/-- C9, amended: on the points `(fMin, fMax)` and `(sMin, sMax)` selected for the
two polygons, `isIntersect` is true if and only if `sMin` is not beyond `fMax`
on both axes at once and `fMin` is not beyond `sMax` on both axes at once,
that is, each of the two pairs is in order on at least one axis. -/
theorem babinov_isIntersect_test (first second : Polygon) (fMin fMax sMin sMax : Point)
    (hf : minmaxElement isPointFurther first.points = some (fMin, fMax))
    (hs : minmaxElement isPointFurther second.points = some (sMin, sMax)) :
    isIntersect first second = some true
      ↔ (sMin.x ≤ fMax.x ∨ sMin.y ≤ fMax.y) ∧ (fMin.x ≤ sMax.x ∨ fMin.y ≤ sMax.y) := by
  simp only [isIntersect, hf, hs, intersectTest, isPointFurther, Option.some.injEq,
    Bool.or_eq_true, Bool.and_eq_true, Bool.not_eq_true', Bool.and_eq_false_iff,
    decide_eq_false_iff_not, decide_eq_true_eq, not_lt, gt_iff_lt]
  tauto

/-- The amended C9 on the squares `(0;0)-(1;1)` and `(2;0)-(3;1)`. -/
theorem babinov_isIntersect_test_witness :
    isIntersect ⟨[⟨0, 0⟩, ⟨0, 1⟩, ⟨1, 1⟩, ⟨1, 0⟩]⟩ ⟨[⟨2, 0⟩, ⟨2, 1⟩, ⟨3, 1⟩, ⟨3, 0⟩]⟩ = some true
      ↔ ((2 : Int) ≤ 1 ∨ (0 : Int) ≤ 0) ∧ ((0 : Int) ≤ 3 ∨ (0 : Int) ≤ 0) :=
  babinov_isIntersect_test ⟨[⟨0, 0⟩, ⟨0, 1⟩, ⟨1, 1⟩, ⟨1, 0⟩]⟩
    ⟨[⟨2, 0⟩, ⟨2, 1⟩, ⟨3, 1⟩, ⟨3, 0⟩]⟩ ⟨0, 0⟩ ⟨1, 0⟩ ⟨2, 0⟩ ⟨3, 0⟩ (by decide) (by decide)

/-- C10: `isIntersect` reports separated shapes as not intersecting.  For
non-empty polygons such that every vertex of the second is strictly greater
than every vertex of the first in both coordinates, the answer is false. -/
theorem babinov_isIntersect_separated (first second : Polygon)
    (hf : first.points ≠ []) (hs : second.points ≠ [])
    (hsep : ∀ p ∈ first.points, ∀ q ∈ second.points, p.x < q.x ∧ p.y < q.y) :
    isIntersect first second = some false := by
  obtain ⟨fMin, fMax, hfe, -, hfMax⟩ := minmaxElement_mem isPointFurther first.points hf
  obtain ⟨sMin, sMax, hse, hsMin, -⟩ := minmaxElement_mem isPointFurther second.points hs
  have h := hsep fMax hfMax sMin hsMin
  simp [isIntersect, hfe, hse, intersectTest, isPointFurther, h.1, h.2]

/-- C10 on the squares `(0;0)-(1;1)` and `(2;2)-(3;3)`. -/
theorem babinov_isIntersect_separated_witness :
    isIntersect ⟨[⟨0, 0⟩, ⟨0, 1⟩, ⟨1, 1⟩, ⟨1, 0⟩]⟩ ⟨[⟨2, 2⟩, ⟨2, 3⟩, ⟨3, 3⟩, ⟨3, 2⟩]⟩
      = some false :=
  babinov_isIntersect_separated ⟨[⟨0, 0⟩, ⟨0, 1⟩, ⟨1, 1⟩, ⟨1, 0⟩]⟩
    ⟨[⟨2, 2⟩, ⟨2, 3⟩, ⟨3, 3⟩, ⟨3, 2⟩]⟩ (by decide) (by decide) (by decide)

end babinov

/-! ## Triangles and areas -/

namespace babinov

open Cpp

theorem generateN_reverse (ws : List Point) :
    ∀ (cur : Triangle) (out : List Triangle),
      generateN ws.length ⟨cur, ws.reverse⟩ out = some (out ++ fan cur.a cur.c ws) := by
  induction ws with
  | nil => intro cur out; simp [generateN, fan]
  | cons w ws ih =>
    intro cur out
    have hcall : TriangleGeneration.call ⟨cur, (w :: ws).reverse⟩
        = some (⟨cur.a, cur.c, w⟩, ⟨⟨cur.a, cur.c, w⟩, ws.reverse⟩) := by
      simp [TriangleGeneration.call]
    simp only [List.length_cons, generateN, hcall]
    rw [ih]
    simp [fan]

theorem splitToTriangles_eq (p0 p1 p2 : Point) (rest : List Point) :
    splitToTriangles ⟨p0 :: p1 :: p2 :: rest⟩
      = some (⟨p0, p1, p2⟩ :: fan p0 p2 rest.reverse) := by
  have h := generateN_reverse rest.reverse ⟨p0, p1, p2⟩ [⟨p0, p1, p2⟩]
  simp only [List.reverse_reverse, List.length_reverse] at h
  simp only [splitToTriangles, List.length_cons, Nat.add_sub_cancel]
  simpa using h

theorem fan_length (a : Point) : ∀ (ws : List Point) (b : Point), (fan a b ws).length = ws.length := by
  intro ws
  induction ws with
  | nil => intro b; rfl
  | cons w ws ih => intro b; simp [fan, ih]

theorem fan_apex (a : Point) : ∀ (ws : List Point) (b : Point), ∀ t ∈ fan a b ws, t.a = a := by
  intro ws
  induction ws with
  | nil => intro b t ht; simp [fan] at ht
  | cons w ws ih =>
    intro b t ht
    simp only [fan, List.mem_cons] at ht
    rcases ht with rfl | ht
    · rfl
    · exact ih w t ht

theorem fan_thirds (a : Point) : ∀ (ws : List Point) (b : Point),
    (fan a b ws).map Triangle.c = ws := by
  intro ws
  induction ws with
  | nil => intro b; rfl
  | cons w ws ih => intro b; simp [fan, ih]

theorem fan_seconds (a : Point) : ∀ (ws : List Point) (b : Point),
    (fan a b ws).map Triangle.b = (b :: ws).dropLast := by
  intro ws
  induction ws with
  | nil => intro b; rfl
  | cons w ws ih => intro b; simp [fan, ih, List.dropLast]

theorem foldl_add_eq_sum (l : List ℝ) (init : ℝ) :
    l.foldl (fun acc x => acc + x) init = init + l.sum := by
  induction l generalizing init with
  | nil => simp
  | cons x xs ih => simp [ih, add_assoc]

theorem getLength_sq (v : Vector) :
    v.getLength ^ 2 = (v.coords.x : ℝ) ^ 2 + (v.coords.y : ℝ) ^ 2 := by
  unfold Vector.getLength
  exact Real.sq_sqrt (by positivity)

theorem heronRadicand_eq (t : Triangle) : t.heronRadicand = ((t.cross : ℝ) / 2) ^ 2 := by
  have ha := getLength_sq (Vector.mk2 t.a t.b)
  have hb := getLength_sq (Vector.mk2 t.b t.c)
  have hc := getLength_sq (Vector.mk2 t.a t.c)
  simp only [Vector.mk2, Int.cast_sub] at ha hb hc
  simp only [Triangle.heronRadicand, Triangle.cross, Vector.mk2]
  generalize (Vector.getLength ⟨⟨t.b.x - t.a.x, t.b.y - t.a.y⟩⟩) = la at ha ⊢
  generalize (Vector.getLength ⟨⟨t.c.x - t.b.x, t.c.y - t.b.y⟩⟩) = lb at hb ⊢
  generalize (Vector.getLength ⟨⟨t.c.x - t.a.x, t.c.y - t.a.y⟩⟩) = lc at hc ⊢
  have key : (la + lb + lc) / 2 * ((la + lb + lc) / 2 - la) * ((la + lb + lc) / 2 - lb)
      * ((la + lb + lc) / 2 - lc)
      = (2 * (la ^ 2) * (lb ^ 2) + 2 * (lb ^ 2) * (lc ^ 2) + 2 * (lc ^ 2) * (la ^ 2)
          - (la ^ 2) ^ 2 - (lb ^ 2) ^ 2 - (lc ^ 2) ^ 2) / 16 := by ring
  rw [key, ha, hb, hc]
  push_cast
  ring

theorem triangle_getArea_eq (t : Triangle) : t.getArea = |(t.cross : ℝ)| / 2 := by
  unfold Triangle.getArea
  rw [heronRadicand_eq, Real.sqrt_sq_eq_abs, abs_div]
  simp

end babinov

namespace babinov

open Cpp

theorem getArea_eq (p0 p1 p2 : Point) (rest : List Point) :
    getArea ⟨p0 :: p1 :: p2 :: rest⟩
      = some (((⟨p0, p1, p2⟩ :: fan p0 p2 rest.reverse).map Triangle.getArea).sum) := by
  simp only [getArea, splitToTriangles_eq, Option.map_some', getTrianglesAreas, foldl_add_eq_sum,
    zero_add]

theorem getArea_isSome (p : Polygon) (h3 : 3 ≤ p.points.length) : (getArea p).isSome = true := by
  obtain ⟨ps⟩ := p
  match ps, h3 with
  | p0 :: p1 :: p2 :: rest, _ => rw [getArea_eq]; rfl

theorem getArea_right_triangle :
    getArea ⟨[⟨0, 0⟩, ⟨2, 0⟩, ⟨0, 2⟩]⟩ = some 2 := by
  rw [getArea_eq]
  simp only [List.reverse_nil, fan, List.map_cons, List.map_nil, triangle_getArea_eq,
    Triangle.cross, List.sum_cons, List.sum_nil]
  norm_num

end babinov

/-! ## The claims on areas, intersection and accumulation -/

namespace babinov

open Cpp

/-- C13, the code at the convex pentagon `(0;0) (2;0) (3;1) (2;2) (0;2)`: the
polygon is convex, its shoelace sum is 10, so its area is 5, and `getArea`
returns 6: the triangles are `v0 v1 v2`, `v0 v2 v4`, `v0 v4 v3`. -/
theorem babinov_getArea_convex_pentagon :
    IsConvex ⟨[⟨0, 0⟩, ⟨2, 0⟩, ⟨3, 1⟩, ⟨2, 2⟩, ⟨0, 2⟩]⟩
    ∧ shoelaceSum ⟨[⟨0, 0⟩, ⟨2, 0⟩, ⟨3, 1⟩, ⟨2, 2⟩, ⟨0, 2⟩]⟩ = 10
    ∧ splitToTriangles ⟨[⟨0, 0⟩, ⟨2, 0⟩, ⟨3, 1⟩, ⟨2, 2⟩, ⟨0, 2⟩]⟩
        = some [⟨⟨0, 0⟩, ⟨2, 0⟩, ⟨3, 1⟩⟩, ⟨⟨0, 0⟩, ⟨3, 1⟩, ⟨0, 2⟩⟩, ⟨⟨0, 0⟩, ⟨0, 2⟩, ⟨2, 2⟩⟩]
    ∧ getArea ⟨[⟨0, 0⟩, ⟨2, 0⟩, ⟨3, 1⟩, ⟨2, 2⟩, ⟨0, 2⟩]⟩ = some 6 := by
  refine ⟨by decide, by decide, by decide, ?_⟩
  rw [getArea_eq]
  simp only [List.reverse_cons, List.reverse_nil, List.nil_append, List.cons_append, fan,
    List.map_cons, List.map_nil, triangle_getArea_eq, Triangle.cross, List.sum_cons,
    List.sum_nil]
  norm_num

/-- C14 as stated fails: for the square `(0;0) (0;1) (1;1) (1;0)` the second
triangle is `(v0, v2, v3)`; it is not `(previous.b, previous.c, v3)`, which is
`(v1, v2, v3)`. -/
theorem babinov_second_triangle_keeps_first_vertex :
    splitToTriangles ⟨[⟨0, 0⟩, ⟨0, 1⟩, ⟨1, 1⟩, ⟨1, 0⟩]⟩
        = some [⟨⟨0, 0⟩, ⟨0, 1⟩, ⟨1, 1⟩⟩, ⟨⟨0, 0⟩, ⟨1, 1⟩, ⟨1, 0⟩⟩]
    ∧ (⟨⟨0, 0⟩, ⟨1, 1⟩, ⟨1, 0⟩⟩ : Triangle) ≠ ⟨⟨0, 1⟩, ⟨1, 1⟩, ⟨1, 0⟩⟩ := by
  decide

/-- C14, amended: for every polygon `v0 v1 v2 ...` with `K >= 3` vertices,
`splitToTriangles` returns `K - 2` triangles; the first is `(v0, v1, v2)`;
every triangle has `v0` as its first point; the second point of each next
triangle is the third point of the previous one; and the third points of the
triangles after the first are the vertices `v3 .. v(K-1)`, each used once. -/
theorem babinov_splitToTriangles_shape (p : Polygon) (v0 v1 v2 : Point) (rest : List Point)
    (hp : p.points = v0 :: v1 :: v2 :: rest) :
    ∃ ts : List Triangle, splitToTriangles p = some ts
      ∧ ts.length = p.points.length - 2
      ∧ ts.head? = some ⟨v0, v1, v2⟩
      ∧ (∀ t ∈ ts, t.a = v0)
      ∧ ts.tail.map Triangle.b = (ts.map Triangle.c).dropLast
      ∧ (ts.tail.map Triangle.c).Perm (p.points.drop 3) := by
  obtain ⟨ps⟩ := p
  simp only at hp
  subst hp
  refine ⟨_, splitToTriangles_eq v0 v1 v2 rest, ?_, rfl, ?_, ?_, ?_⟩
  · simp [fan_length]
  · intro t ht
    rw [List.mem_cons] at ht
    rcases ht with rfl | ht
    · rfl
    · exact fan_apex v0 _ _ t ht
  · simp only [List.tail_cons, List.map_cons, fan_seconds, fan_thirds]
  · simp only [List.tail_cons, fan_thirds, List.drop_succ_cons, List.drop_zero]
    exact List.reverse_perm rest

/-- The amended C14 on the pentagon `(0;0) (2;0) (3;1) (2;2) (0;2)`. -/
theorem babinov_splitToTriangles_shape_witness :
    ∃ ts : List Triangle,
      splitToTriangles ⟨[⟨0, 0⟩, ⟨2, 0⟩, ⟨3, 1⟩, ⟨2, 2⟩, ⟨0, 2⟩]⟩ = some ts
      ∧ ts.length = (⟨[⟨0, 0⟩, ⟨2, 0⟩, ⟨3, 1⟩, ⟨2, 2⟩, ⟨0, 2⟩]⟩ : Polygon).points.length - 2
      ∧ ts.head? = some ⟨⟨0, 0⟩, ⟨2, 0⟩, ⟨3, 1⟩⟩
      ∧ (∀ t ∈ ts, t.a = ⟨0, 0⟩)
      ∧ ts.tail.map Triangle.b = (ts.map Triangle.c).dropLast
      ∧ (ts.tail.map Triangle.c).Perm
          ((⟨[⟨0, 0⟩, ⟨2, 0⟩, ⟨3, 1⟩, ⟨2, 2⟩, ⟨0, 2⟩]⟩ : Polygon).points.drop 3) :=
  babinov_splitToTriangles_shape ⟨[⟨0, 0⟩, ⟨2, 0⟩, ⟨3, 1⟩, ⟨2, 2⟩, ⟨0, 2⟩]⟩ ⟨0, 0⟩ ⟨2, 0⟩ ⟨3, 1⟩
    [⟨2, 2⟩, ⟨0, 2⟩] rfl

/-- C15: Heron's formula as implemented returns the area of the triangle.
For every triangle with integer vertices, degenerate ones included, the
quantity under the square root is not negative, and `getArea`, the square
root of `s (s - |ab|) (s - |bc|) (s - |ac|)`, is half the absolute value of
the cross product `(b - a) x (c - a)`. -/
theorem babinov_triangle_getArea_heron (t : Triangle) :
    0 ≤ t.heronRadicand
    ∧ t.getArea = Real.sqrt t.heronRadicand
    ∧ t.getArea
        = |(((t.b.x - t.a.x) * (t.c.y - t.a.y) - (t.b.y - t.a.y) * (t.c.x - t.a.x) : Int) : ℝ)|
          / 2 := by
  refine ⟨?_, rfl, triangle_getArea_eq t⟩
  rw [heronRadicand_eq]
  positivity

end babinov

namespace babinov

open Cpp

/-- C16: the answer of `isIntersect` depends on the order in which the points
of a polygon are visited.  There are a polygon `F` and two polygons `S`, `S'`
with the same vertices in the same cyclic order, `S'` starting one vertex
later, for which the answers differ; the maximum selected for `S` differs
from the one selected for `S'`, so one of them cannot be the corner of the
bounding box. -/
theorem babinov_isIntersect_depends_on_start :
    ∃ F S S' : Polygon, S'.points = S.points.rotate 1
      ∧ isIntersect F S ≠ isIntersect F S'
      ∧ (minmaxElement isPointFurther S.points).map Prod.snd
          ≠ (minmaxElement isPointFurther S'.points).map Prod.snd
      ∧ isIntersect F S = some false ∧ isIntersect F S' = some true
      ∧ minmaxElement isPointFurther S.points = some (⟨0, 0⟩, ⟨1, 0⟩)
      ∧ minmaxElement isPointFurther S'.points = some (⟨0, 1⟩, ⟨1, 1⟩) :=
  ⟨⟨[⟨2, 1⟩, ⟨2, 2⟩, ⟨3, 2⟩, ⟨3, 1⟩]⟩, ⟨[⟨0, 0⟩, ⟨0, 1⟩, ⟨1, 1⟩, ⟨1, 0⟩]⟩,
    ⟨[⟨0, 1⟩, ⟨1, 1⟩, ⟨1, 0⟩, ⟨0, 0⟩]⟩, by decide⟩

/-- C17: totality of the triangulated area under its precondition.  For every
polygon with `K >= 3` vertices the first three points exist, the generator is
called `K - 3` times starting with exactly `K - 3` remaining points and every
call finds a point, `splitToTriangles` returns exactly `K - 2` triangles, and
`getArea` is the sum of their areas. -/
theorem babinov_splitToTriangles_total (p : Polygon) (h3 : 3 ≤ p.points.length) :
    ∃ (p0 p1 p2 : Point) (rest : List Point) (ts : List Triangle),
      p.points = p0 :: p1 :: p2 :: rest
      ∧ rest.length = p.points.length - 3
      ∧ generateN (p.points.length - 3) ⟨⟨p0, p1, p2⟩, rest⟩ [⟨p0, p1, p2⟩] = some ts
      ∧ splitToTriangles p = some ts
      ∧ ts.length = p.points.length - 2
      ∧ getArea p = some (ts.map Triangle.getArea).sum := by
  obtain ⟨ps⟩ := p
  match ps, h3 with
  | p0 :: p1 :: p2 :: rest, _ =>
    have hs := splitToTriangles_eq p0 p1 p2 rest
    refine ⟨p0, p1, p2, rest, _, rfl, by simp, ?_, hs, by simp [fan_length], getArea_eq _ _ _ _⟩
    simpa [splitToTriangles] using hs

/-- C17 on the pentagon `(0;0) (2;0) (3;1) (2;2) (0;2)`. -/
theorem babinov_splitToTriangles_total_witness :
    ∃ (p0 p1 p2 : Point) (rest : List Point) (ts : List Triangle),
      (⟨[⟨0, 0⟩, ⟨2, 0⟩, ⟨3, 1⟩, ⟨2, 2⟩, ⟨0, 2⟩]⟩ : Polygon).points = p0 :: p1 :: p2 :: rest
      ∧ rest.length = (⟨[⟨0, 0⟩, ⟨2, 0⟩, ⟨3, 1⟩, ⟨2, 2⟩, ⟨0, 2⟩]⟩ : Polygon).points.length - 3
      ∧ generateN ((⟨[⟨0, 0⟩, ⟨2, 0⟩, ⟨3, 1⟩, ⟨2, 2⟩, ⟨0, 2⟩]⟩ : Polygon).points.length - 3)
          ⟨⟨p0, p1, p2⟩, rest⟩ [⟨p0, p1, p2⟩] = some ts
      ∧ splitToTriangles ⟨[⟨0, 0⟩, ⟨2, 0⟩, ⟨3, 1⟩, ⟨2, 2⟩, ⟨0, 2⟩]⟩ = some ts
      ∧ ts.length = (⟨[⟨0, 0⟩, ⟨2, 0⟩, ⟨3, 1⟩, ⟨2, 2⟩, ⟨0, 2⟩]⟩ : Polygon).points.length - 2
      ∧ getArea ⟨[⟨0, 0⟩, ⟨2, 0⟩, ⟨3, 1⟩, ⟨2, 2⟩, ⟨0, 2⟩]⟩
          = some (ts.map Triangle.getArea).sum :=
  babinov_splitToTriangles_total ⟨[⟨0, 0⟩, ⟨2, 0⟩, ⟨3, 1⟩, ⟨2, 2⟩, ⟨0, 2⟩]⟩ (by decide)

/-- C18: `isIntersect` is symmetric.  For non-empty polygons the answer does
not change when the two polygons are exchanged; the two alternatives of the
return expression are the same condition, so the answer is
`!isPointFurther(fMax, sMin) && !isPointFurther(sMax, fMin)` on the selected
points. -/
theorem babinov_isIntersect_symmetric (first second : Polygon)
    (hf : first.points ≠ []) (hs : second.points ≠ []) :
    isIntersect first second = isIntersect second first
    ∧ ∃ fMin fMax sMin sMax : Point,
        minmaxElement isPointFurther first.points = some (fMin, fMax)
        ∧ minmaxElement isPointFurther second.points = some (sMin, sMax)
        ∧ isIntersect first second
            = some ((!isPointFurther fMax sMin) && (!isPointFurther sMax fMin)) := by
  obtain ⟨fMin, fMax, hfe, -, -⟩ := minmaxElement_mem isPointFurther first.points hf
  obtain ⟨sMin, sMax, hse, -, -⟩ := minmaxElement_mem isPointFurther second.points hs
  refine ⟨?_, fMin, fMax, sMin, sMax, hfe, hse, ?_⟩
  · simp only [isIntersect, hfe, hse, intersectTest, Option.some.injEq]
    cases isPointFurther fMax sMin <;> cases isPointFurther sMax fMin <;> rfl
  · simp only [isIntersect, hfe, hse, intersectTest, Option.some.injEq]
    cases isPointFurther fMax sMin <;> cases isPointFurther sMax fMin <;> rfl

/-- C18 on the squares `(0;0)-(1;1)` and `(2;1)-(3;2)`. -/
theorem babinov_isIntersect_symmetric_witness :
    isIntersect ⟨[⟨0, 0⟩, ⟨0, 1⟩, ⟨1, 1⟩, ⟨1, 0⟩]⟩ ⟨[⟨2, 1⟩, ⟨2, 2⟩, ⟨3, 2⟩, ⟨3, 1⟩]⟩
        = isIntersect ⟨[⟨2, 1⟩, ⟨2, 2⟩, ⟨3, 2⟩, ⟨3, 1⟩]⟩ ⟨[⟨0, 0⟩, ⟨0, 1⟩, ⟨1, 1⟩, ⟨1, 0⟩]⟩ :=
  (babinov_isIntersect_symmetric ⟨[⟨0, 0⟩, ⟨0, 1⟩, ⟨1, 1⟩, ⟨1, 0⟩]⟩
    ⟨[⟨2, 1⟩, ⟨2, 2⟩, ⟨3, 2⟩, ⟨3, 1⟩]⟩ (by decide) (by decide)).1

end babinov

/-! ## Machine arithmetic: wrap-around and rounding -/

namespace Cpp

theorem wrapInt_of_inRange (i : Int) (h : InIntRange i) : wrapInt i = i := by
  unfold InIntRange intMin intMax at h
  unfold wrapInt
  omega

theorem roundHalfEven_near (y : ℝ) (m : Int) (h : |y - m| < 1 / 2) : roundHalfEven y = m := by
  rw [abs_lt] at h
  unfold roundHalfEven
  by_cases hge : (m : ℝ) ≤ y
  · have hf : ⌊y⌋ = m := by
      rw [Int.floor_eq_iff]; constructor <;> linarith
    rw [hf, if_pos (by linarith)]
  · push_neg at hge
    have hf : ⌊y⌋ = m - 1 := by
      rw [Int.floor_eq_iff]; push_cast; constructor <;> linarith
    rw [hf]
    push_cast
    rw [if_neg (by linarith), if_pos (by linarith)]
    ring

theorem roundHalfEven_tie (m : Int) (hm : m % 2 = 0) : roundHalfEven ((m : ℝ) + 1 / 2) = m := by
  have hf : ⌊(m : ℝ) + 1 / 2⌋ = m := by
    rw [Int.floor_eq_iff]; constructor <;> linarith
  unfold roundHalfEven
  rw [hf]
  norm_num [hm]

theorem roundDouble_zero : roundDouble 0 = 0 := by simp [roundDouble]

theorem log_eq_of_bounds (x : ℝ) (k : Int) (hlo : (2 : ℝ) ^ k ≤ x) (hhi : x < (2 : ℝ) ^ (k + 1)) :
    Int.log 2 x = k := by
  have hpos : 0 < x := lt_of_lt_of_le (by positivity) hlo
  have h1 : k ≤ Int.log 2 x := (Int.zpow_le_iff_le_log (by norm_num) hpos).mp (by exact_mod_cast hlo)
  have h2 : Int.log 2 x < k + 1 := (Int.lt_zpow_iff_log_lt (by norm_num) hpos).mp (by exact_mod_cast hhi)
  omega

theorem roundDouble_scaled (x : ℝ) (n : Nat) (hlo : 2 ^ 52 ≤ x * 2 ^ n) (hhi : x * 2 ^ n < 2 ^ 53) :
    roundDouble x = (roundHalfEven (x * 2 ^ n) : ℝ) / 2 ^ n := by
  have hpos : 0 < x := by
    by_contra h
    push_neg at h
    have : x * 2 ^ n ≤ 0 := mul_nonpos_of_nonpos_of_nonneg h (by positivity)
    linarith [show (0 : ℝ) < 2 ^ 52 by positivity]
  have hz : (2 : ℝ) ^ (-(n : Int)) = 1 / 2 ^ n := by
    rw [zpow_neg, zpow_natCast, one_div]
  have hlog : Int.log 2 |x| = 52 - (n : Int) := by
    rw [abs_of_pos hpos]
    apply log_eq_of_bounds
    · rw [sub_eq_add_neg, zpow_add₀ (by norm_num), hz]
      have : (2 : ℝ) ^ (52 : Int) = 2 ^ 52 := by norm_cast
      rw [this, mul_one_div, div_le_iff₀ (by positivity)]
      exact hlo
    · have : (52 : Int) - n + 1 = 53 + -(n : Int) := by ring
      rw [this, zpow_add₀ (by norm_num), hz]
      have : (2 : ℝ) ^ (53 : Int) = 2 ^ 53 := by norm_cast
      rw [this, mul_one_div, lt_div_iff₀ (by positivity)]
      exact hhi
  have he : Int.log 2 |x| - 52 = -(n : Int) := by omega
  unfold roundDouble
  rw [if_neg hpos.ne', he, hz]
  field_simp

theorem roundDouble_pos (x : ℝ) (h : 0 < x) : 0 < roundDouble x := by
  have hle := Int.zpow_log_le_self (b := 2) (r := x) (by norm_num) h
  have hz : (0 : ℝ) < (2 : ℝ) ^ (Int.log 2 x - 52) := by positivity
  have hy : (2 : ℝ) ^ 52 ≤ x / (2 : ℝ) ^ (Int.log 2 x - 52) := by
    rw [le_div_iff₀ hz]
    have : (2 : ℝ) ^ 52 * (2 : ℝ) ^ (Int.log 2 x - 52) = (2 : ℝ) ^ Int.log 2 x := by
      have h52 : (2 : ℝ) ^ 52 = (2 : ℝ) ^ (52 : Int) := by norm_cast
      rw [h52, ← zpow_add₀ (by norm_num)]
      congr 1; ring
    rw [this]
    exact_mod_cast hle
  have hfl : (2 : Int) ^ 52 ≤ ⌊x / (2 : ℝ) ^ (Int.log 2 x - 52)⌋ := by
    rw [Int.le_floor]; exact_mod_cast hy
  have hr : ⌊x / (2 : ℝ) ^ (Int.log 2 x - 52)⌋ ≤ roundHalfEven (x / (2 : ℝ) ^ (Int.log 2 x - 52)) := by
    unfold roundHalfEven
    split_ifs <;> omega
  unfold roundDouble
  rw [if_neg h.ne', abs_of_pos h]
  apply mul_pos _ hz
  have : (0 : Int) < roundHalfEven (x / (2 : ℝ) ^ (Int.log 2 x - 52)) := by
    have : (0 : Int) < 2 ^ 52 := by norm_num
    omega
  exact_mod_cast this

theorem roundHalfEven_neg (y : ℝ) : roundHalfEven (-y) = -roundHalfEven y := by
  by_cases hint : (⌊y⌋ : ℝ) = y
  · have h1 : y - ⌊y⌋ = 0 := by linarith
    have hf : ⌊-y⌋ = -⌊y⌋ := by
      rw [Int.floor_eq_iff]; push_cast; constructor <;> linarith
    have h2 : -y - ⌊-y⌋ = 0 := by rw [hf]; push_cast; linarith
    unfold roundHalfEven
    rw [h1, h2]
    norm_num [hf]
  · have hlt : (⌊y⌋ : ℝ) < y := lt_of_le_of_ne (Int.floor_le y) hint
    have hlt2 := Int.lt_floor_add_one y
    have hf : ⌊-y⌋ = -⌊y⌋ - 1 := by
      rw [Int.floor_eq_iff]; push_cast; constructor <;> linarith
    unfold roundHalfEven
    rw [hf]
    push_cast
    by_cases c1 : y - ⌊y⌋ < 1 / 2
    · rw [if_pos c1, if_neg (by linarith), if_pos (by linarith)]; ring
    · by_cases c2 : 1 / 2 < y - ⌊y⌋
      · rw [if_neg c1, if_pos c2, if_pos (by linarith)]; ring
      · have ceq : y - ⌊y⌋ = 1 / 2 := by linarith
        rw [if_neg c1, if_neg c2, if_neg (by linarith), if_neg (by linarith)]
        by_cases hev : ⌊y⌋ % 2 = 0
        · rw [if_pos hev, if_neg (by omega)]; ring
        · rw [if_neg hev, if_pos (by omega)]; ring

theorem roundDouble_neg (x : ℝ) : roundDouble (-x) = -roundDouble x := by
  unfold roundDouble
  by_cases h : x = 0
  · simp [h]
  · rw [if_neg h, if_neg (by simpa using h), abs_neg, neg_div, roundHalfEven_neg]
    push_cast
    ring

theorem roundDouble_eq_zero_iff (x : ℝ) : roundDouble x = 0 ↔ x = 0 := by
  constructor
  · intro h
    by_contra hx
    rcases lt_or_gt_of_ne hx with hneg | hpos
    · have := roundDouble_pos (-x) (by linarith)
      rw [roundDouble_neg] at this
      linarith
    · have := roundDouble_pos x hpos
      linarith
  · rintro rfl; exact roundDouble_zero

theorem roundDouble_nonneg (x : ℝ) (h : 0 ≤ x) : 0 ≤ roundDouble x := by
  rcases h.eq_or_lt with h | h
  · rw [← h, roundDouble_zero]
  · exact (roundDouble_pos x h).le

end Cpp

/-! ## The rectangle test in machine arithmetic -/

namespace babinov

open Cpp

theorem machine_getLength_eq_zero_iff (v : Vector) :
    Machine.Vector.getLength v = 0 ↔ v.coords.x = 0 ∧ v.coords.y = 0 := by
  unfold Machine.Vector.getLength
  have hx := roundDouble_nonneg ((v.coords.x : ℝ) ^ 2) (by positivity)
  have hy := roundDouble_nonneg ((v.coords.y : ℝ) ^ 2) (by positivity)
  have hs := roundDouble_nonneg _ (add_nonneg hx hy)
  rw [roundDouble_eq_zero_iff, Real.sqrt_eq_zero hs, roundDouble_eq_zero_iff]
  constructor
  · intro h
    have h1 : roundDouble ((v.coords.x : ℝ) ^ 2) = 0 := by linarith
    have h2 : roundDouble ((v.coords.y : ℝ) ^ 2) = 0 := by linarith
    rw [roundDouble_eq_zero_iff] at h1 h2
    exact ⟨by exact_mod_cast pow_eq_zero_iff (by norm_num) |>.mp h1,
      by exact_mod_cast pow_eq_zero_iff (by norm_num) |>.mp h2⟩
  · rintro ⟨h1, h2⟩
    simp [h1, h2, roundDouble_zero]

theorem machine_findCosBetween_eq_zero_iff (u v : Vector) :
    Machine.Vector.findCosBetween u v = some 0 ↔
      ¬ (u.coords.x = 0 ∧ u.coords.y = 0) ∧ ¬ (v.coords.x = 0 ∧ v.coords.y = 0)
        ∧ wrapInt (wrapInt (u.coords.x * v.coords.x) + wrapInt (u.coords.y * v.coords.y)) = 0 := by
  unfold Machine.Vector.findCosBetween
  by_cases hden : roundDouble (Machine.Vector.getLength u * Machine.Vector.getLength v) = 0
  · rw [if_pos hden]
    rw [roundDouble_eq_zero_iff] at hden
    rcases mul_eq_zero.mp hden with h | h
    · have := (machine_getLength_eq_zero_iff u).mp h
      simp [this]
    · have := (machine_getLength_eq_zero_iff v).mp h
      simp [this]
  · rw [if_neg hden]
    have hden' := hden
    rw [roundDouble_eq_zero_iff] at hden'
    have hu : ¬ (u.coords.x = 0 ∧ u.coords.y = 0) := fun h =>
      hden' (by rw [(machine_getLength_eq_zero_iff u).mpr h, zero_mul])
    have hv : ¬ (v.coords.x = 0 ∧ v.coords.y = 0) := fun h =>
      hden' (by rw [(machine_getLength_eq_zero_iff v).mpr h, mul_zero])
    simp only [Option.some.injEq, roundDouble_eq_zero_iff, div_eq_zero_iff, hden, or_false,
      Machine.Vector.dot]
    constructor
    · intro h
      exact ⟨hu, hv, by exact_mod_cast h⟩
    · rintro ⟨-, -, h⟩
      exact_mod_cast h

theorem wrapInt_mul_add_small (a b c d : Int) (ha : |a| ≤ 32766) (hb : |b| ≤ 32766)
    (hc : |c| ≤ 32766) (hd : |d| ≤ 32766) :
    wrapInt (wrapInt (a * b) + wrapInt (c * d)) = a * b + c * d := by
  have h1 : |a * b| ≤ 32766 * 32766 := by
    rw [abs_mul]; exact mul_le_mul ha hb (abs_nonneg _) (by norm_num)
  have h2 : |c * d| ≤ 32766 * 32766 := by
    rw [abs_mul]; exact mul_le_mul hc hd (abs_nonneg _) (by norm_num)
  rw [abs_le] at h1 h2
  rw [wrapInt_of_inRange (a * b) (by unfold InIntRange intMin intMax; omega),
    wrapInt_of_inRange (c * d) (by unfold InIntRange intMin intMax; omega),
    wrapInt_of_inRange _ (by unfold InIntRange intMin intMax; omega)]

theorem machine_mk2_small (b e : Point) (hb : b.Small) (he : e.Small) :
    Machine.Vector.mk2 b e = Vector.mk2 b e
      ∧ |(Vector.mk2 b e).coords.x| ≤ 32766 ∧ |(Vector.mk2 b e).coords.y| ≤ 32766 := by
  obtain ⟨hbx, hby⟩ := hb
  obtain ⟨hex, hey⟩ := he
  rw [abs_le] at hbx hby hex hey
  refine ⟨?_, ?_, ?_⟩
  · simp only [Machine.Vector.mk2, Vector.mk2]
    rw [wrapInt_of_inRange _ (by unfold InIntRange intMin intMax; omega),
      wrapInt_of_inRange _ (by unfold InIntRange intMin intMax; omega)]
  · simp only [Vector.mk2]; rw [abs_le]; omega
  · simp only [Vector.mk2]; rw [abs_le]; omega

theorem machine_findCosBetween_small (u v : Vector)
    (hu : |u.coords.x| ≤ 32766 ∧ |u.coords.y| ≤ 32766)
    (hv : |v.coords.x| ≤ 32766 ∧ |v.coords.y| ≤ 32766) :
    Machine.Vector.findCosBetween u v = some 0 ↔ u.findCosBetween v = some 0 := by
  rw [machine_findCosBetween_eq_zero_iff, findCosBetween_eq_zero_iff,
    wrapInt_mul_add_small _ _ _ _ hu.1 hv.1 hu.2 hv.2]

theorem machine_isRectangle_four (v0 v1 v2 v3 : Point)
    (h0 : v0.Small) (h1 : v1.Small) (h2 : v2.Small) (h3 : v3.Small) :
    Machine.isRectangle ⟨[v0, v1, v2, v3]⟩ = true ↔ RectangleCorners v0 v1 v2 v3 := by
  rw [← isRectangle_four]
  obtain ⟨e1, b1⟩ := machine_mk2_small v0 v1 h0 h1
  obtain ⟨e2, b2⟩ := machine_mk2_small v1 v2 h1 h2
  obtain ⟨e3, b3⟩ := machine_mk2_small v2 v3 h2 h3
  obtain ⟨e4, b4⟩ := machine_mk2_small v0 v3 h0 h3
  simp only [Machine.isRectangle, isRectangle, e1, e2, e3, e4, Bool.and_eq_true,
    decide_eq_true_eq, machine_findCosBetween_small _ _ b1 b2,
    machine_findCosBetween_small _ _ b2 b3, machine_findCosBetween_small _ _ b3 b4]

end babinov

/-! ## The area of the unit square in `double` -/

namespace Cpp

theorem roundDouble_sqrt (v : ℝ) (m : Int) (n : Nat) (hm1 : (2 : Int) ^ 52 < m)
    (hm2 : m < (2 : Int) ^ 53)
    (h1 : (((2 * m - 1 : Int) : ℝ) / 2 ^ (n + 1)) ^ 2 < v)
    (h2 : v < (((2 * m + 1 : Int) : ℝ) / 2 ^ (n + 1)) ^ 2) :
    roundDouble (Real.sqrt v) = (m : ℝ) / 2 ^ n := by
  have hmR1 : (2 : ℝ) ^ 52 + 1 ≤ (m : ℝ) := by exact_mod_cast (show (2 : Int) ^ 52 + 1 ≤ m by omega)
  have hmR2 : (m : ℝ) + 1 ≤ (2 : ℝ) ^ 53 := by exact_mod_cast (show m + 1 ≤ (2 : Int) ^ 53 by omega)
  have hp : (0 : ℝ) < 2 ^ n := by positivity
  have hlow : ((2 * m - 1 : Int) : ℝ) / 2 ^ (n + 1) < Real.sqrt v := by
    apply Real.lt_sqrt_of_sq_lt
    exact h1
  have hhigh : Real.sqrt v < ((2 * m + 1 : Int) : ℝ) / 2 ^ (n + 1) := by
    rw [Real.sqrt_lt' (by push_cast; positivity)]
    exact h2
  have e1 : ((2 * m - 1 : Int) : ℝ) / 2 ^ (n + 1) = ((m : ℝ) - 1 / 2) / 2 ^ n := by
    push_cast; rw [pow_succ]; field_simp; ring
  have e2 : ((2 * m + 1 : Int) : ℝ) / 2 ^ (n + 1) = ((m : ℝ) + 1 / 2) / 2 ^ n := by
    push_cast; rw [pow_succ]; field_simp; ring
  rw [e1, div_lt_iff₀ hp] at hlow
  rw [e2, lt_div_iff₀ hp] at hhigh
  rw [roundDouble_scaled _ n (by linarith) (by linarith),
    roundHalfEven_near _ m (by rw [abs_lt]; constructor <;> linarith)]

theorem roundDouble_one : roundDouble 1 = 1 := by
  rw [roundDouble_scaled 1 52 (by norm_num) (by norm_num),
    roundHalfEven_near _ 4503599627370496 (by rw [abs_lt]; constructor <;> norm_num)]
  norm_num

end Cpp

namespace babinov

open Cpp

theorem machine_getLength_0_1 : Machine.Vector.getLength ⟨⟨0, 1⟩⟩ = 1 := by
  simp [Machine.Vector.getLength, roundDouble_zero, roundDouble_one]

theorem machine_getLength_1_0 : Machine.Vector.getLength ⟨⟨1, 0⟩⟩ = 1 := by
  simp [Machine.Vector.getLength, roundDouble_zero, roundDouble_one]

theorem machine_getLength_0_m1 : Machine.Vector.getLength ⟨⟨0, -1⟩⟩ = 1 := by
  simp [Machine.Vector.getLength, roundDouble_zero, roundDouble_one]

theorem machine_getLength_1_1 :
    Machine.Vector.getLength ⟨⟨1, 1⟩⟩ = (6369051672525773 / 2 ^ 52) := by
  have e0 : roundDouble (1 + 1) = 2 := by
    rw [roundDouble_scaled (1 + 1) 51 (by norm_num) (by norm_num),
      roundHalfEven_near _ 4503599627370496 (by rw [abs_lt]; constructor <;> norm_num)]
    norm_num
  have e101 : roundDouble (Real.sqrt 2) = (6369051672525773 / 2 ^ 52) := by
    rw [roundDouble_sqrt 2 6369051672525773 52 (by norm_num) (by norm_num) (by norm_num) (by norm_num)]
    norm_num
  simp only [Machine.Vector.getLength, Int.cast_one, one_pow, roundDouble_one, e0, e101]

theorem machine_getArea_first_half :
    Machine.Triangle.getArea ⟨⟨0, 0⟩, ⟨0, 1⟩, ⟨1, 1⟩⟩ = some (9007199254740989 / 2 ^ 54) := by
  have v1 : Machine.Vector.mk2 ⟨0, 0⟩ ⟨0, 1⟩ = ⟨⟨0, 1⟩⟩ := by decide
  have v2 : Machine.Vector.mk2 ⟨0, 1⟩ ⟨1, 1⟩ = ⟨⟨1, 0⟩⟩ := by decide
  have v3 : Machine.Vector.mk2 ⟨0, 0⟩ ⟨1, 1⟩ = ⟨⟨1, 1⟩⟩ := by decide
  have e1 : roundDouble (1 + 1) = 2 := by
    rw [roundDouble_scaled (1 + 1) 51 (by norm_num) (by norm_num),
      roundHalfEven_near _ 4503599627370496 (by rw [abs_lt]; constructor <;> norm_num)]
    norm_num
  have e2 : roundDouble (2 + (6369051672525773 / 2 ^ 52)) = (3844062731816691 / 2 ^ 50) := by
    rw [roundDouble_scaled (2 + (6369051672525773 / 2 ^ 52)) 51 (by norm_num) (by norm_num),
      show (2 + (6369051672525773 / 2 ^ 52) : ℝ) * 2 ^ 51 = ((7688125463633382 : Int) : ℝ) + 1 / 2 by norm_num,
      roundHalfEven_tie 7688125463633382 (by decide)]
    norm_num
  have e3 : roundDouble ((3844062731816691 / 2 ^ 50) / 2) = (3844062731816691 / 2 ^ 51) := by
    rw [roundDouble_scaled ((3844062731816691 / 2 ^ 50) / 2) 52 (by norm_num) (by norm_num),
      roundHalfEven_near _ 7688125463633382 (by rw [abs_lt]; constructor <;> norm_num)]
    norm_num
  have e4 : roundDouble ((3844062731816691 / 2 ^ 51) - 1) = (1592262918131443 / 2 ^ 51) := by
    rw [roundDouble_scaled ((3844062731816691 / 2 ^ 51) - 1) 53 (by norm_num) (by norm_num),
      roundHalfEven_near _ 6369051672525772 (by rw [abs_lt]; constructor <;> norm_num)]
    norm_num
  have e5 : roundDouble ((3844062731816691 / 2 ^ 51) - (6369051672525773 / 2 ^ 52)) = (1319073791107609 / 2 ^ 52) := by
    rw [roundDouble_scaled ((3844062731816691 / 2 ^ 51) - (6369051672525773 / 2 ^ 52)) 54 (by norm_num) (by norm_num),
      roundHalfEven_near _ 5276295164430436 (by rw [abs_lt]; constructor <;> norm_num)]
    norm_num
  have e6 : roundDouble ((3844062731816691 / 2 ^ 51) * (1592262918131443 / 2 ^ 51)) = (2718162824974067 / 2 ^ 51) := by
    rw [roundDouble_scaled ((3844062731816691 / 2 ^ 51) * (1592262918131443 / 2 ^ 51)) 52 (by norm_num) (by norm_num),
      roundHalfEven_near _ 5436325649948134 (by rw [abs_lt]; constructor <;> norm_num)]
    norm_num
  have e7 : roundDouble ((2718162824974067 / 2 ^ 51) * (1592262918131443 / 2 ^ 51)) = (7688125463633381 / 2 ^ 53) := by
    rw [roundDouble_scaled ((2718162824974067 / 2 ^ 51) * (1592262918131443 / 2 ^ 51)) 53 (by norm_num) (by norm_num),
      roundHalfEven_near _ 7688125463633381 (by rw [abs_lt]; constructor <;> norm_num)]
    norm_num
  have e8 : roundDouble ((7688125463633381 / 2 ^ 53) * (1319073791107609 / 2 ^ 52)) = (4503599627370493 / 2 ^ 54) := by
    rw [roundDouble_scaled ((7688125463633381 / 2 ^ 53) * (1319073791107609 / 2 ^ 52)) 55 (by norm_num) (by norm_num),
      roundHalfEven_near _ 9007199254740986 (by rw [abs_lt]; constructor <;> norm_num)]
    norm_num
  have e9 : roundDouble (Real.sqrt (4503599627370493 / 2 ^ 54)) = (9007199254740989 / 2 ^ 54) := by
    rw [roundDouble_sqrt (4503599627370493 / 2 ^ 54) 9007199254740989 54 (by norm_num) (by norm_num) (by norm_num) (by norm_num)]
    norm_num
  simp only [Machine.Triangle.getArea, v1, v2, v3, machine_getLength_0_1, machine_getLength_1_0, machine_getLength_1_1]
  rw [e1, e2, e3, e4, e5, e6, e7, e8, if_neg (by norm_num), e9]

theorem machine_getArea_second_half :
    Machine.Triangle.getArea ⟨⟨0, 0⟩, ⟨1, 1⟩, ⟨1, 0⟩⟩ = some (2251799813685247 / 2 ^ 52) := by
  have v1 : Machine.Vector.mk2 ⟨0, 0⟩ ⟨1, 1⟩ = ⟨⟨1, 1⟩⟩ := by decide
  have v2 : Machine.Vector.mk2 ⟨1, 1⟩ ⟨1, 0⟩ = ⟨⟨0, -1⟩⟩ := by decide
  have v3 : Machine.Vector.mk2 ⟨0, 0⟩ ⟨1, 0⟩ = ⟨⟨1, 0⟩⟩ := by decide
  have e1 : roundDouble ((6369051672525773 / 2 ^ 52) + 1) = (2718162824974067 / 2 ^ 50) := by
    rw [roundDouble_scaled ((6369051672525773 / 2 ^ 52) + 1) 51 (by norm_num) (by norm_num),
      show ((6369051672525773 / 2 ^ 52) + 1 : ℝ) * 2 ^ 51 = ((5436325649948134 : Int) : ℝ) + 1 / 2 by norm_num,
      roundHalfEven_tie 5436325649948134 (by decide)]
    norm_num
  have e2 : roundDouble ((2718162824974067 / 2 ^ 50) + 1) = (3844062731816691 / 2 ^ 50) := by
    rw [roundDouble_scaled ((2718162824974067 / 2 ^ 50) + 1) 51 (by norm_num) (by norm_num),
      roundHalfEven_near _ 7688125463633382 (by rw [abs_lt]; constructor <;> norm_num)]
    norm_num
  have e3 : roundDouble ((3844062731816691 / 2 ^ 50) / 2) = (3844062731816691 / 2 ^ 51) := by
    rw [roundDouble_scaled ((3844062731816691 / 2 ^ 50) / 2) 52 (by norm_num) (by norm_num),
      roundHalfEven_near _ 7688125463633382 (by rw [abs_lt]; constructor <;> norm_num)]
    norm_num
  have e4 : roundDouble ((3844062731816691 / 2 ^ 51) - (6369051672525773 / 2 ^ 52)) = (1319073791107609 / 2 ^ 52) := by
    rw [roundDouble_scaled ((3844062731816691 / 2 ^ 51) - (6369051672525773 / 2 ^ 52)) 54 (by norm_num) (by norm_num),
      roundHalfEven_near _ 5276295164430436 (by rw [abs_lt]; constructor <;> norm_num)]
    norm_num
  have e5 : roundDouble ((3844062731816691 / 2 ^ 51) - 1) = (1592262918131443 / 2 ^ 51) := by
    rw [roundDouble_scaled ((3844062731816691 / 2 ^ 51) - 1) 53 (by norm_num) (by norm_num),
      roundHalfEven_near _ 6369051672525772 (by rw [abs_lt]; constructor <;> norm_num)]
    norm_num
  have e6 : roundDouble ((3844062731816691 / 2 ^ 51) * (1319073791107609 / 2 ^ 52)) = (9007199254740987 / 2 ^ 54) := by
    rw [roundDouble_scaled ((3844062731816691 / 2 ^ 51) * (1319073791107609 / 2 ^ 52)) 54 (by norm_num) (by norm_num),
      roundHalfEven_near _ 9007199254740987 (by rw [abs_lt]; constructor <;> norm_num)]
    norm_num
  have e7 : roundDouble ((9007199254740987 / 2 ^ 54) * (1592262918131443 / 2 ^ 51)) = (796131459065721 / 2 ^ 51) := by
    rw [roundDouble_scaled ((9007199254740987 / 2 ^ 54) * (1592262918131443 / 2 ^ 51)) 54 (by norm_num) (by norm_num),
      roundHalfEven_near _ 6369051672525768 (by rw [abs_lt]; constructor <;> norm_num)]
    norm_num
  have e8 : roundDouble ((796131459065721 / 2 ^ 51) * (1592262918131443 / 2 ^ 51)) = (9007199254740985 / 2 ^ 55) := by
    rw [roundDouble_scaled ((796131459065721 / 2 ^ 51) * (1592262918131443 / 2 ^ 51)) 55 (by norm_num) (by norm_num),
      roundHalfEven_near _ 9007199254740985 (by rw [abs_lt]; constructor <;> norm_num)]
    norm_num
  have e9 : roundDouble (Real.sqrt (9007199254740985 / 2 ^ 55)) = (2251799813685247 / 2 ^ 52) := by
    rw [roundDouble_sqrt (9007199254740985 / 2 ^ 55) 9007199254740988 54 (by norm_num) (by norm_num) (by norm_num) (by norm_num)]
    norm_num
  simp only [Machine.Triangle.getArea, v1, v2, v3, machine_getLength_1_1, machine_getLength_0_m1, machine_getLength_1_0]
  rw [e1, e2, e3, e4, e5, e6, e7, e8, if_neg (by norm_num), e9]

theorem machine_getArea_unit_square :
    Machine.getArea ⟨[⟨0, 0⟩, ⟨0, 1⟩, ⟨1, 1⟩, ⟨1, 0⟩]⟩ = some (2251799813685247 / 2 ^ 51) := by
  have e1 : roundDouble ((9007199254740989 / 2 ^ 54)) = (9007199254740989 / 2 ^ 54) := by
    rw [roundDouble_scaled ((9007199254740989 / 2 ^ 54)) 54 (by norm_num) (by norm_num),
      roundHalfEven_near _ 9007199254740989 (by rw [abs_lt]; constructor <;> norm_num)]
    norm_num
  have e2 : roundDouble ((9007199254740989 / 2 ^ 54) + (2251799813685247 / 2 ^ 52)) = (2251799813685247 / 2 ^ 51) := by
    rw [roundDouble_scaled ((9007199254740989 / 2 ^ 54) + (2251799813685247 / 2 ^ 52)) 53 (by norm_num) (by norm_num),
      show ((9007199254740989 / 2 ^ 54) + (2251799813685247 / 2 ^ 52) : ℝ) * 2 ^ 53 = ((9007199254740988 : Int) : ℝ) + 1 / 2 by norm_num,
      roundHalfEven_tie 9007199254740988 (by decide)]
    norm_num
  simp only [Machine.getArea, splitToTriangles_eq, List.reverse_cons, List.reverse_nil,
    List.nil_append, fan, Option.some_bind, Machine.getTrianglesAreas, List.map_cons,
    List.map_nil, machine_getArea_first_half, machine_getArea_second_half, Machine.accumulate,
    zero_add, e1, e2]

end babinov

/-! ## The integer accumulation of `erohin::getArea` -/

namespace erohin

open Cpp

theorem accumulate_eq_foldl (values : List ℝ) :
    ∀ init : Int, (∀ x ∈ roundedSums values init, (-2147483649 : ℝ) < x ∧ x < 2147483648) →
      accumulate values init
        = values.foldl (fun (acc : Int) (c : ℝ) =>
            if 0 ≤ roundDouble ((acc : ℝ) + c) then ⌊roundDouble ((acc : ℝ) + c)⌋
            else ⌈roundDouble ((acc : ℝ) + c)⌉) init := by
  induction values with
  | nil => intro init _; rfl
  | cons v vs ih =>
    intro init h
    have hv := h (roundDouble ((init : ℝ) + v)) (by simp [roundedSums])
    have hto : toInt (roundDouble ((init : ℝ) + v))
        = (if 0 ≤ roundDouble ((init : ℝ) + v) then ⌊roundDouble ((init : ℝ) + v)⌋
            else ⌈roundDouble ((init : ℝ) + v)⌉) := by
      unfold toInt intMin intMax
      rw [if_pos]
      constructor
      · have := hv.1; push_cast; linarith
      · have := hv.2; push_cast; linarith
    simp only [accumulate, List.foldl_cons, hto]
    apply ih
    intro x hx
    exact h x (by simp only [roundedSums, List.mem_cons]; exact Or.inr hx)

theorem roundDouble_half : roundDouble (1 / 2) = 1 / 2 := by
  rw [roundDouble_scaled (1 / 2) 53 (by norm_num) (by norm_num),
    roundHalfEven_near _ 4503599627370496 (by rw [abs_lt]; constructor <;> norm_num)]
  norm_num

theorem roundDouble_one_minus_tiny : roundDouble (1 + -(1 / 2 ^ 60)) = 1 := by
  rw [roundDouble_scaled (1 + -(1 / 2 ^ 60)) 53 (by norm_num) (by norm_num),
    roundHalfEven_near _ 9007199254740992 (by rw [abs_lt]; constructor <;> norm_num)]
  norm_num

theorem toInt_zero : toInt 0 = 0 := by
  norm_num [toInt, intMin, intMax]

theorem toInt_one : toInt 1 = 1 := by
  norm_num [toInt, intMin, intMax]

theorem toInt_half : toInt (1 / 2) = 0 := by
  have : ⌊(1 / 2 : ℝ)⌋ = 0 := by rw [Int.floor_eq_iff]; norm_num
  norm_num [toInt, intMin, intMax, this]

end erohin

/-! ## The claims on machine arithmetic -/

namespace babinov

open Cpp

theorem machine_fold_unit_square :
    [(⟨[⟨0, 0⟩, ⟨0, 1⟩, ⟨1, 1⟩, ⟨1, 0⟩]⟩ : Polygon), ⟨[⟨0, 0⟩, ⟨2, 0⟩, ⟨0, 2⟩]⟩].foldlM
        (fun acc p => Machine.addAreaIf acc p Machine.isRectangle) 0
      = some (2251799813685247 / 2 ^ 51) := by
  have hsq : Machine.isRectangle ⟨[⟨0, 0⟩, ⟨0, 1⟩, ⟨1, 1⟩, ⟨1, 0⟩]⟩ = true :=
    (machine_isRectangle_four _ _ _ _ (by decide) (by decide) (by decide) (by decide)).mpr
      (by decide)
  have htri : Machine.isRectangle ⟨[⟨0, 0⟩, ⟨2, 0⟩, ⟨0, 2⟩]⟩ = false := by
    simp [Machine.isRectangle]
  have e3 : roundDouble ((2251799813685247 / 2 ^ 51)) = (2251799813685247 / 2 ^ 51) := by
    rw [roundDouble_scaled ((2251799813685247 / 2 ^ 51)) 53 (by norm_num) (by norm_num),
      roundHalfEven_near _ 9007199254740988 (by rw [abs_lt]; constructor <;> norm_num)]
    norm_num
  simp [List.foldlM, Machine.addAreaIf, hsq, htri, machine_getArea_unit_square, e3]

theorem machine_foldlM_addAreaIf (pred : Polygon → Bool) (polygons : List Polygon) :
    ∀ init : ℝ, polygons.foldlM (fun acc p => Machine.addAreaIf acc p pred) init
      = (polygons.filter pred).foldlM Machine.addArea init := by
  induction polygons with
  | nil => intro init; rfl
  | cons p ps ih =>
    intro init
    by_cases hp : pred p = true
    · simp only [List.foldlM_cons, List.filter_cons_of_pos hp, Machine.addAreaIf,
        Machine.addArea, hp, if_true]
      cases Machine.getArea p with
      | none => rfl
      | some a => simp only [Option.map_some', Option.some_bind, Option.bind_eq_bind]; exact ih _
    · simp only [List.foldlM_cons, List.filter_cons_of_neg hp, Machine.addAreaIf, hp]
      simp only [Bool.false_eq_true, if_false, Option.some_bind, Option.bind_eq_bind]
      exact ih _

/-- C11 as stated fails in its example: over the unit square and the triangle
`(0;0) (2;0) (0;2)` with `isRectangle` and start 0 the fold of `addAreaIf`
gives `2251799813685247 / 2^51`, the `double` 0.9999999999999996, not 1. -/
theorem babinov_unit_square_fold_below_one :
    [(⟨[⟨0, 0⟩, ⟨0, 1⟩, ⟨1, 1⟩, ⟨1, 0⟩]⟩ : Polygon), ⟨[⟨0, 0⟩, ⟨2, 0⟩, ⟨0, 2⟩]⟩].foldlM
        (fun acc p => Machine.addAreaIf acc p Machine.isRectangle) 0 ≠ some 1 := by
  rw [machine_fold_unit_square]
  norm_num

/-- C11, amended: `addAreaIf` returns the accumulator plus the area of the
polygon (the sum rounded as a `double`) when the predicate holds and the
accumulator otherwise; hence for every list of polygons with at least three
vertices each, every predicate and every start value, no polygon is indexed
out of range and folding `addAreaIf` from the left over the list gives what
folding `addArea` over the polygons that satisfy the predicate gives.  Over
the unit square and the triangle `(0;0) (2;0) (0;2)`, which is not a
rectangle and whose area in exact real arithmetic is 2, with `isRectangle` and
start 0 the result is the area computed for the unit square,
`2251799813685247 / 2^51` (0.9999999999999996). -/
theorem babinov_addAreaIf_filter (pred : Polygon → Bool) (init : ℝ) (polygons : List Polygon)
    (h3 : ∀ p ∈ polygons, 3 ≤ p.points.length) :
    (∀ (acc area : ℝ) (p : Polygon), Machine.getArea p = some area →
        Machine.addAreaIf acc p pred = some (if pred p then roundDouble (acc + area) else acc))
    ∧ (∀ p ∈ polygons, (splitToTriangles p).isSome = true)
    ∧ polygons.foldlM (fun acc p => Machine.addAreaIf acc p pred) init
        = (polygons.filter pred).foldlM Machine.addArea init
    ∧ Machine.getArea ⟨[⟨0, 0⟩, ⟨0, 1⟩, ⟨1, 1⟩, ⟨1, 0⟩]⟩ = some (2251799813685247 / 2 ^ 51)
    ∧ Machine.isRectangle ⟨[⟨0, 0⟩, ⟨2, 0⟩, ⟨0, 2⟩]⟩ = false
    ∧ getArea ⟨[⟨0, 0⟩, ⟨2, 0⟩, ⟨0, 2⟩]⟩ = some 2
    ∧ [(⟨[⟨0, 0⟩, ⟨0, 1⟩, ⟨1, 1⟩, ⟨1, 0⟩]⟩ : Polygon), ⟨[⟨0, 0⟩, ⟨2, 0⟩, ⟨0, 2⟩]⟩].foldlM
        (fun acc p => Machine.addAreaIf acc p Machine.isRectangle) 0
          = some (2251799813685247 / 2 ^ 51) := by
  refine ⟨?_, ?_, machine_foldlM_addAreaIf pred polygons init, machine_getArea_unit_square,
    by simp [Machine.isRectangle], getArea_right_triangle, machine_fold_unit_square⟩
  · intro acc area p hp
    by_cases h : pred p = true <;> simp [Machine.addAreaIf, h, hp]
  · intro p hp
    obtain ⟨ps⟩ := p
    match ps, h3 _ hp with
    | p0 :: p1 :: p2 :: rest, _ => rw [splitToTriangles_eq]; rfl

/-- The amended C11 on the unit square and the triangle `(0;0) (2;0) (0;2)`
with the predicate `isRectangle` and start 0. -/
theorem babinov_addAreaIf_filter_witness :
    [(⟨[⟨0, 0⟩, ⟨0, 1⟩, ⟨1, 1⟩, ⟨1, 0⟩]⟩ : Polygon), ⟨[⟨0, 0⟩, ⟨2, 0⟩, ⟨0, 2⟩]⟩].foldlM
        (fun acc p => Machine.addAreaIf acc p Machine.isRectangle) 0
      = ([(⟨[⟨0, 0⟩, ⟨0, 1⟩, ⟨1, 1⟩, ⟨1, 0⟩]⟩ : Polygon), ⟨[⟨0, 0⟩, ⟨2, 0⟩, ⟨0, 2⟩]⟩].filter
          Machine.isRectangle).foldlM Machine.addArea 0 :=
  (babinov_addAreaIf_filter Machine.isRectangle 0
    [⟨[⟨0, 0⟩, ⟨0, 1⟩, ⟨1, 1⟩, ⟨1, 0⟩]⟩, ⟨[⟨0, 0⟩, ⟨2, 0⟩, ⟨0, 2⟩]⟩] (by decide)).2.2.1

end babinov

namespace erohin

open Cpp

/-- C19 as stated fails: the sum `acc + c` is a `double` sum and is rounded
before the fractional part is discarded.  For the contributions `1` and
`-2^-60` the value returned is 1, while the fold `acc := trunc(acc + c)` with
exact sums gives 0.  And the result need not be the whole part of the sum
when that does not fit `int`: for the single contribution `3000000000` the
model returns the least `int`. -/
theorem erohin_getArea_rounds_before_truncating :
    getArea (fun _ _ => (0 : Nat))
        (fun n _ => (if n = 0 then (1 : ℝ) else -(1 / 2 ^ 60), n + 1))
        ⟨[⟨0, 0⟩, ⟨1, 0⟩]⟩ = some 1
    ∧ transform (fun n _ => (if n = 0 then (1 : ℝ) else -(1 / 2 ^ 60), n + 1)) (0 : Nat)
        [(⟨0, 0⟩ : Point), ⟨1, 0⟩] = [1, -(1 / 2 ^ 60)]
    ∧ ([1, -(1 / 2 ^ 60)] : List ℝ).foldl
        (fun (acc : Int) (c : ℝ) =>
          if 0 ≤ (acc : ℝ) + c then ⌊(acc : ℝ) + c⌋ else ⌈(acc : ℝ) + c⌉) 0 = 0
    ∧ accumulate [3000000000] 0 = -2147483648 := by
  have ht : transform (fun n _ => (if n = 0 then (1 : ℝ) else -(1 / 2 ^ 60), n + 1)) (0 : Nat)
      [(⟨0, 0⟩ : Point), ⟨1, 0⟩] = [1, -(1 / 2 ^ 60)] := by
    simp [transform]
  have hfl : ⌊(1 : ℝ) + -(1 / 2 ^ 60)⌋ = 0 := by
    rw [Int.floor_eq_iff]; norm_num
  have hbig : roundDouble (3000000000 : ℝ) = 3000000000 := by
    rw [roundDouble_scaled 3000000000 21 (by norm_num) (by norm_num),
      roundHalfEven_near _ 6291456000000000 (by rw [abs_lt]; constructor <;> norm_num)]
    norm_num
  refine ⟨?_, ht, ?_, ?_⟩
  · simp only [getArea, transform, accumulate, Int.cast_zero, zero_add, if_true, if_false,
      one_ne_zero, roundDouble_one, toInt_one, Int.cast_one, roundDouble_one_minus_tiny]
  · simp only [List.foldl_cons, List.foldl_nil, Int.cast_zero, zero_add]
    norm_num [hfl]
  · simp only [accumulate, Int.cast_zero, zero_add, hbig]
    norm_num [toInt, intMin, intMax]

/-- C19, amended: `erohin::getArea` accumulates in an integer.  For every
polygon with at least one point and whatever function object produces the
contributions, as long as every rounded sum `acc + c` on the way lies
strictly between `-2^31 - 1` and `2^31`, the value returned is the left fold
`acc := trunc(acc + c)` over the contributions, started at 0, in which the sum
is the rounded `double` sum and `trunc` discards the fractional part (toward
zero); it is read as a `double` at the end, so it is always a whole number.
It is not in general the sum: the contributions `0, 0, 1/2, 1/2` give 0 while
their sum is 1.  The contribution `-3/2` alone gives -1 and `5/2` alone
gives 2. -/
theorem erohin_getArea_truncates {σ : Type} (make : Point → Point → σ)
    (call : σ → Point → ℝ × σ) (polygon : Polygon) (first : Point) (rest : List Point)
    (hp : polygon.points = first :: rest)
    (hrange : ∀ x ∈ roundedSums (transform call (make first first) polygon.points) 0,
      (-2147483649 : ℝ) < x ∧ x < 2147483648) :
    getArea make call polygon
        = some (((transform call (make first first) polygon.points).foldl
            (fun (acc : Int) (c : ℝ) =>
              if 0 ≤ roundDouble ((acc : ℝ) + c) then ⌊roundDouble ((acc : ℝ) + c)⌋
              else ⌈roundDouble ((acc : ℝ) + c)⌉) 0 : Int) : ℝ)
    ∧ accumulate [0, 0, 1 / 2, 1 / 2] 0 = 0
    ∧ ([0, 0, 1 / 2, 1 / 2] : List ℝ).sum = 1
    ∧ accumulate [-(3 / 2)] 0 = -1
    ∧ accumulate [5 / 2] 0 = 2 := by
  have h32 : roundDouble (3 / 2) = 3 / 2 := by
    rw [roundDouble_scaled (3 / 2) 52 (by norm_num) (by norm_num),
      roundHalfEven_near _ 6755399441055744 (by rw [abs_lt]; constructor <;> norm_num)]
    norm_num
  have h52 : roundDouble (5 / 2) = 5 / 2 := by
    rw [roundDouble_scaled (5 / 2) 51 (by norm_num) (by norm_num),
      roundHalfEven_near _ 5629499534213120 (by rw [abs_lt]; constructor <;> norm_num)]
    norm_num
  have hm32 : roundDouble (-(3 / 2)) = -(3 / 2) := by rw [roundDouble_neg, h32]
  have hc : ⌈(-(3 / 2) : ℝ)⌉ = -1 := by rw [Int.ceil_eq_iff]; norm_num
  have hf : ⌊(5 / 2 : ℝ)⌋ = 2 := by rw [Int.floor_eq_iff]; norm_num
  refine ⟨?_, ?_, by norm_num, ?_, ?_⟩
  · obtain ⟨ps⟩ := polygon
    simp only at hp
    subst hp
    simp only [getArea]
    rw [accumulate_eq_foldl _ 0 hrange]
  · simp only [accumulate, Int.cast_zero, zero_add, roundDouble_zero, toInt_zero,
      roundDouble_half, toInt_half]
  · simp only [accumulate, Int.cast_zero, zero_add, hm32]
    norm_num [toInt, intMin, intMax, hc]
  · simp only [accumulate, Int.cast_zero, zero_add, h52]
    norm_num [toInt, intMin, intMax, hf]

/-- The amended C19 on a polygon of four points with a function object whose
contributions are `0, 0, 1/2, 1/2`: the value returned is 0. -/
theorem erohin_getArea_truncates_witness :
    getArea (fun _ _ => (0 : Nat)) (fun n _ => (if n < 2 then (0 : ℝ) else 1 / 2, n + 1))
        ⟨[⟨0, 0⟩, ⟨1, 0⟩, ⟨1, 1⟩, ⟨0, 1⟩]⟩ = some 0 := by
  have ht : transform (fun n _ => (if n < 2 then (0 : ℝ) else 1 / 2, n + 1)) (0 : Nat)
      [(⟨0, 0⟩ : Point), ⟨1, 0⟩, ⟨1, 1⟩, ⟨0, 1⟩] = [0, 0, 1 / 2, 1 / 2] := by
    simp [transform]
  have hfl : ⌊(1 / 2 : ℝ)⌋ = 0 := by rw [Int.floor_eq_iff]; norm_num
  have hpos : (0 : ℝ) ≤ 1 / 2 := by norm_num
  have h := (erohin_getArea_truncates (fun _ _ => (0 : Nat))
    (fun n _ => (if n < 2 then (0 : ℝ) else 1 / 2, n + 1))
    ⟨[⟨0, 0⟩, ⟨1, 0⟩, ⟨1, 1⟩, ⟨0, 1⟩]⟩ ⟨0, 0⟩ [⟨1, 0⟩, ⟨1, 1⟩, ⟨0, 1⟩] rfl
    (by
      rw [ht]
      intro x hx
      simp only [roundedSums, Int.cast_zero, zero_add, roundDouble_zero, le_refl, if_true,
        Int.floor_zero, roundDouble_half, hpos, hfl, List.mem_cons, List.mem_nil_iff, or_false] at hx
      rcases hx with rfl | rfl | rfl | rfl <;> norm_num)).1
  rw [h, ht]
  simp only [List.foldl_cons, List.foldl_nil, Int.cast_zero, zero_add, roundDouble_zero,
    le_refl, if_true, Int.floor_zero, roundDouble_half, hpos, hfl, Int.cast_zero]

end erohin
